import Mathlib

/-!
Shallow embedding of `x/staking/keeper/keeper.go` (the evmos staking keeper
wrapper).  The single interesting operation is `Keeper.Delegate`; its external
collaborators (address codecs, record store, bank/ledger, hooks, and the base
SDK keeper's share-minting primitive) are modelled as an environment of
oracles.  `Delegate` returns an `Outcome` (normal return value paired with an
optional error, or a fatal panic) together with the trace of external calls it
performed, so that frame and ordering properties can be stated on the trace.
-/

namespace StakingKeeper

/-- Bond status enum of the Cosmos SDK (`types.BondStatus`): `unspecified` is
the zero value outside the three meaningful states. -/
inductive BondStatus
  | unspecified
  | unbonded
  | unbonding
  | bonded
deriving DecidableEq, Repr

/-- Type `math.LegacyDec`: either the uninitialized nil decimal `LegacyDec{}` or a
genuine decimal value (modelled as an exact rational). -/
inductive LegacyDec
  | nil
  | dec (q : ℚ)
deriving DecidableEq, Repr

/-- The value `math.LegacyZeroDec()`. -/
def LegacyDec.zero : LegacyDec := .dec 0

/-- Addition `LegacyDec.Add`; adding through the nil decimal is undefined in the source
(it panics), here collapsed to `nil`. -/
def LegacyDec.add : LegacyDec → LegacyDec → LegacyDec
  | .dec a, .dec b => .dec (a + b)
  | _, _ => .nil

/-- Errors crossing the `Delegate` boundary.  `noDelegation` is the
`types.ErrNoDelegation` sentinel (matched with `errors.Is`),
`exRateInvalid` is `types.ErrDelegatorShareExRateInvalid`, and `msg n`
stands for any other error value. -/
inductive Err
  | noDelegation
  | exRateInvalid
  | msg (n : ℕ)
deriving DecidableEq, Repr

/-- Raw address bytes (`sdk.AccAddress` / decoded operator bytes). -/
abbrev Bz := List ℕ

/-- Type `types.Validator`, restricted to the fields `Delegate` consults. -/
structure Validator where
  operator : String
  status : BondStatus
  tokens : ℤ
  delegatorShares : ℚ
deriving DecidableEq, Repr

/-- Predicate `Validator.InvalidExRate`: true iff the validator has zero tokens but a
positive amount of delegator shares. -/
def Validator.InvalidExRate (v : Validator) : Bool :=
  v.tokens == 0 && decide (0 < v.delegatorShares)

/-- Predicate `Validator.IsBonded`. -/
def Validator.IsBonded (v : Validator) : Bool := v.status == .bonded

/-- Predicate `Validator.IsUnbonding`. -/
def Validator.IsUnbonding (v : Validator) : Bool := v.status == .unbonding

/-- Predicate `Validator.IsUnbonded`. -/
def Validator.IsUnbonded (v : Validator) : Bool := v.status == .unbonded

/-- Type `types.Delegation`. -/
structure Delegation where
  delegatorAddress : String
  validatorAddress : String
  shares : LegacyDec
deriving DecidableEq, Repr

/-- Constructor `types.NewDelegation`. -/
def NewDelegation (delAddr valAddr : String) (shares : LegacyDec) : Delegation :=
  ⟨delAddr, valAddr, shares⟩

/-- The two module pools (`types.BondedPoolName` / `types.NotBondedPoolName`). -/
inductive Pool
  | bonded
  | notBonded
deriving DecidableEq, Repr

/-- Messages of the three `panic` sites in `Delegate`. -/
inductive PanicMsg
  | tokenSourceBonded
  | invalidValidatorStatus
  | unknownTokenSource
deriving DecidableEq, Repr

/-- Result of `Delegate`: a normal `(newShares, err)` return, or a fatal
abort via `panic`. -/
inductive Outcome
  | ret (shares : LegacyDec) (err : Option Err)
  | fatal (m : PanicMsg)
deriving DecidableEq, Repr

/-- One external call performed by `Delegate`, recorded in order. -/
inductive Event
  | decodeValAddr (s : String)
  | storeGetDelegation (del : Bz) (val : Bz)
  | hookBeforeSharesModified (del : Bz) (val : Bz)
  | encodeDelAddr (del : Bz)
  | hookBeforeCreated (del : Bz) (val : Bz)
  | bondDenomQuery
  | ledgerDelegateToModule (del : Bz) (pool : Pool) (denom : String) (amt : ℤ)
  | ledgerModuleToModule (src : Pool) (dst : Pool) (denom : String) (amt : ℤ)
  | mintShares (v : Validator) (amt : ℤ)
  | storeSetDelegation (d : Delegation)
  | hookAfterModified (del : Bz) (val : Bz)
deriving DecidableEq, Repr

/-- A ledger (bank) transfer of either kind. -/
def Event.isLedger : Event → Bool
  | .ledgerDelegateToModule _ _ _ _ => true
  | .ledgerModuleToModule _ _ _ _ => true
  | _ => false

/-- A pool-to-pool ledger transfer. -/
def Event.isModuleTransfer : Event → Bool
  | .ledgerModuleToModule _ _ _ _ => true
  | _ => false

/-- A delegator-account-to-pool ledger transfer. -/
def Event.isAccountTransfer : Event → Bool
  | .ledgerDelegateToModule _ _ _ _ => true
  | _ => false

/-- A record-store write (`SetDelegation`). -/
def Event.isStoreWrite : Event → Bool
  | .storeSetDelegation _ => true
  | _ => false

/-- The `BeforeDelegationCreated` hook call. -/
def Event.isBeforeCreated : Event → Bool
  | .hookBeforeCreated _ _ => true
  | _ => false

/-- The `AfterDelegationModified` hook call. -/
def Event.isAfterModified : Event → Bool
  | .hookAfterModified _ _ => true
  | _ => false

/-- The external collaborators of `Delegate`, as oracles fixed for one call:
validator address codec, record store, hooks, delegator address codec, bank
keeper, and the embedded SDK keeper's `BondDenom` and
`AddValidatorTokensAndShares`.  The mint oracle returns the updated
validator, the issued shares, and an optional error, matching the Go
signature. -/
structure Env where
  stringToBytes : String → Except Err Bz
  getDelegation : Bz → Bz → Except Err Delegation
  beforeDelegationSharesModified : Bz → Bz → Option Err
  beforeDelegationCreated : Bz → Bz → Option Err
  afterDelegationModified : Bz → Bz → Option Err
  bytesToString : Bz → Except Err String
  bondDenom : Except Err String
  delegateCoinsFromAccountToModule : Bz → Pool → String → ℤ → Option Err
  sendCoinsFromModuleToModule : Pool → Pool → String → ℤ → Option Err
  addValidatorTokensAndShares : Validator → ℤ → Validator × LegacyDec × Option Err
  setDelegation : Delegation → Option Err

/-- Helper `Keeper.bondedTokensToNotBonded`: resolve the bond denomination, then move
`tokens` from the bonded pool to the not-bonded pool. -/
def bondedTokensToNotBonded (env : Env) (tokens : ℤ) : Option Err × List Event :=
  match env.bondDenom with
  | .error e => (some e, [.bondDenomQuery])
  | .ok denom =>
      (env.sendCoinsFromModuleToModule .bonded .notBonded denom tokens,
       [.bondDenomQuery, .ledgerModuleToModule .bonded .notBonded denom tokens])

/-- Helper `Keeper.notBondedTokensToBonded`: resolve the bond denomination, then move
`tokens` from the not-bonded pool to the bonded pool. -/
def notBondedTokensToBonded (env : Env) (tokens : ℤ) : Option Err × List Event :=
  match env.bondDenom with
  | .error e => (some e, [.bondDenomQuery])
  | .ok denom =>
      (env.sendCoinsFromModuleToModule .notBonded .bonded denom tokens,
       [.bondDenomQuery, .ledgerModuleToModule .notBonded .bonded denom tokens])

/-- Abort value of the liquidity phase from a bank-call result: a failing
transfer returns the nil decimal and the bank error (lines 110, 123, 129), a
successful one lets control fall through. -/
def sendAbort : Option Err → Option Outcome
  | some e => some (.ret .nil (some e))
  | none => none

/-- Liquidity-movement step of `Delegate` (the `if subtractAccount` block,
lines 84–134): returns the events it performed and `some outcome` when it
aborts (error return or panic), `none` when control falls through to share
minting. -/
def liquidityPhase (env : Env) (delAddr : Bz) (bondAmt : ℤ) (tokenSrc : BondStatus)
    (validator : Validator) (subtractAccount : Bool) : List Event × Option Outcome :=
  if subtractAccount then
    if tokenSrc == .bonded then
      ([], some (.fatal .tokenSourceBonded))
    else
      match
        (if validator.IsBonded then some Pool.bonded
         else if validator.IsUnbonding || validator.IsUnbonded then some Pool.notBonded
         else none) with
      | none => ([], some (.fatal .invalidValidatorStatus))
      | some sendName =>
        match env.bondDenom with
        | .error e => ([.bondDenomQuery], some (.ret .nil (some e)))
        | .ok denom =>
          ([.bondDenomQuery, .ledgerDelegateToModule delAddr sendName denom bondAmt],
           sendAbort (env.delegateCoinsFromAccountToModule delAddr sendName denom bondAmt))
  else
    if tokenSrc == .bonded && validator.IsBonded then
      ([], none)
    else if (tokenSrc == .unbonded || tokenSrc == .unbonding) && !validator.IsBonded then
      ([], none)
    else if (tokenSrc == .unbonded || tokenSrc == .unbonding) && validator.IsBonded then
      ((notBondedTokensToBonded env bondAmt).2,
       sendAbort (notBondedTokensToBonded env bondAmt).1)
    else if tokenSrc == .bonded && !validator.IsBonded then
      ((bondedTokensToNotBonded env bondAmt).2,
       sendAbort (bondedTokensToNotBonded env bondAmt).1)
    else
      ([], some (.fatal .unknownTokenSource))

/-- The delegation record after line 142: shares incremented by the newly
issued shares. -/
def updatedDelegation (delegation : Delegation) (newShares : LegacyDec) : Delegation :=
  { delegation with shares := delegation.shares.add newShares }

/-- Share-minting tail of `Delegate` (lines 136–152): mint shares via the
embedded keeper, add them to the delegation record, persist it, and fire the
after-modification hook. -/
def mintPhase (env : Env) (delAddr : Bz) (bondAmt : ℤ) (validator : Validator)
    (valbz : Bz) (delegation : Delegation) (t : List Event) : Outcome × List Event :=
  match env.addValidatorTokensAndShares validator bondAmt with
  | (_, newShares, some e) =>
      (.ret newShares (some e), t ++ [.mintShares validator bondAmt])
  | (_, newShares, none) =>
      match env.setDelegation (updatedDelegation delegation newShares) with
      | some e =>
          (.ret newShares (some e),
           t ++ [.mintShares validator bondAmt,
                 .storeSetDelegation (updatedDelegation delegation newShares)])
      | none =>
          match env.afterDelegationModified delAddr valbz with
          | some e =>
              (.ret newShares (some e),
               t ++ [.mintShares validator bondAmt,
                     .storeSetDelegation (updatedDelegation delegation newShares),
                     .hookAfterModified delAddr valbz])
          | none =>
              (.ret newShares none,
               t ++ [.mintShares validator bondAmt,
                     .storeSetDelegation (updatedDelegation delegation newShares),
                     .hookAfterModified delAddr valbz])

/-- Steps 4–8 of `Delegate`, entered once the delegation record is in hand and
the pre-hook has succeeded. -/
def delegateCore (env : Env) (delAddr : Bz) (bondAmt : ℤ) (tokenSrc : BondStatus)
    (validator : Validator) (subtractAccount : Bool) (valbz : Bz)
    (delegation : Delegation) (t : List Event) : Outcome × List Event :=
  match liquidityPhase env delAddr bondAmt tokenSrc validator subtractAccount with
  | (t2, some out) => (out, t ++ t2)
  | (t2, none) => mintPhase env delAddr bondAmt validator valbz delegation (t ++ t2)

/-- Operation `Keeper.Delegate` (keeper.go lines 46–153): exchange-rate gate, operator
address decoding, load-or-create of the delegation record with the matching
pre-hook, liquidity movement, share minting, persistence, post-hook. -/
def Delegate (env : Env) (delAddr : Bz) (bondAmt : ℤ) (tokenSrc : BondStatus)
    (validator : Validator) (subtractAccount : Bool) : Outcome × List Event :=
  if validator.InvalidExRate then
    (.ret LegacyDec.zero (some .exRateInvalid), [])
  else
    match env.stringToBytes validator.operator with
    | .error e => (.ret LegacyDec.zero (some e), [.decodeValAddr validator.operator])
    | .ok valbz =>
      match env.getDelegation delAddr valbz with
      | .ok delegation =>
        match env.beforeDelegationSharesModified delAddr valbz with
        | some e =>
            (.ret LegacyDec.zero (some e),
             [.decodeValAddr validator.operator, .storeGetDelegation delAddr valbz,
              .hookBeforeSharesModified delAddr valbz])
        | none =>
            delegateCore env delAddr bondAmt tokenSrc validator subtractAccount valbz
              delegation
              [.decodeValAddr validator.operator, .storeGetDelegation delAddr valbz,
               .hookBeforeSharesModified delAddr valbz]
      | .error .noDelegation =>
        match env.bytesToString delAddr with
        | .error e1 =>
            (.ret .nil (some e1),
             [.decodeValAddr validator.operator, .storeGetDelegation delAddr valbz,
              .encodeDelAddr delAddr])
        | .ok delAddrStr =>
          match env.beforeDelegationCreated delAddr valbz with
          | some e =>
              (.ret LegacyDec.zero (some e),
               [.decodeValAddr validator.operator, .storeGetDelegation delAddr valbz,
                .encodeDelAddr delAddr, .hookBeforeCreated delAddr valbz])
          | none =>
              delegateCore env delAddr bondAmt tokenSrc validator subtractAccount valbz
                (NewDelegation delAddrStr validator.operator LegacyDec.zero)
                [.decodeValAddr validator.operator, .storeGetDelegation delAddr valbz,
                 .encodeDelAddr delAddr, .hookBeforeCreated delAddr valbz]
      | .error e => (.ret LegacyDec.zero (some e),
          [.decodeValAddr validator.operator, .storeGetDelegation delAddr valbz])

/-- Modelled from the spec: the embedded SDK keeper's
`AddValidatorTokensAndShares` (the Share Minting Primitive of spec §4.3) is
not part of this repository — only its call site is.  Per the spec it returns
`shares = amount / exchange-rate` with the exchange rate `tokens / shares`
taken before the transaction (so `issued = amount * shares / tokens`), and it
adds the amount and the issued shares to the validator's aggregate totals.
When the validator has no shares yet, shares are issued one-for-one. -/
def AddValidatorTokensAndShares_spec (v : Validator) (amount : ℤ) : Validator × ℚ :=
  let issued : ℚ :=
    if v.delegatorShares = 0 then (amount : ℚ)
    else (amount : ℚ) * v.delegatorShares / (v.tokens : ℚ)
  ({ v with tokens := v.tokens + amount, delegatorShares := v.delegatorShares + issued },
   issued)

/-- The mint oracle induced by the spec-modelled primitive (never errors). -/
def specMintOracle : Validator → ℤ → Validator × LegacyDec × Option Err :=
  fun v a =>
    ((AddValidatorTokensAndShares_spec v a).1,
     .dec (AddValidatorTokensAndShares_spec v a).2, none)

/-! Concrete sample data and environments used by the witness theorems. -/

/-- Sample operator address string. -/
def opAddr : String := "evmosvaloper1op"

/-- Sample delegator address string. -/
def delStr : String := "evmos1del"

/-- Sample bond denomination. -/
def stakeDenom : String := "aevmos"

/-- Sample delegator address bytes. -/
def delBz : Bz := [7, 7]

/-- Sample decoded operator bytes. -/
def valBz : Bz := [1, 2]

/-- A bonded validator with a healthy exchange rate. -/
def sampleVal : Validator :=
  { operator := opAddr, status := .bonded, tokens := 100, delegatorShares := 100 }

/-- A validator whose exchange rate is invalid (shares without tokens). -/
def invalidVal : Validator :=
  { operator := opAddr, status := .bonded, tokens := 0, delegatorShares := 5 }

/-- An existing delegation with 3 shares. -/
def sampleDel : Delegation := ⟨delStr, opAddr, .dec 3⟩

/-- An environment in which every collaborator succeeds and the delegator has
no prior delegation (first-time path). -/
def goodEnv : Env where
  stringToBytes := fun _ => .ok valBz
  getDelegation := fun _ _ => .error .noDelegation
  beforeDelegationSharesModified := fun _ _ => none
  beforeDelegationCreated := fun _ _ => none
  afterDelegationModified := fun _ _ => none
  bytesToString := fun _ => .ok delStr
  bondDenom := .ok stakeDenom
  delegateCoinsFromAccountToModule := fun _ _ _ _ => none
  sendCoinsFromModuleToModule := fun _ _ _ _ => none
  addValidatorTokensAndShares := specMintOracle
  setDelegation := fun _ => none

/-- Like `goodEnv`, but the delegation record already exists. -/
def foundEnv : Env :=
  { goodEnv with getDelegation := fun _ _ => .ok sampleDel }

/-- Holds iff the trace contains no ledger (bank) call of either kind. -/
def noLedger (t : List Event) : Bool := t.all fun e => !e.isLedger

/-- Destination pool chosen by the `subtractAccount` branch, as a function of
the validator's status. -/
def poolForStatus : BondStatus → Option Pool
  | .bonded => some .bonded
  | .unbonding => some .notBonded
  | .unbonded => some .notBonded
  | .unspecified => none

/-- An unbonding validator with a healthy exchange rate. -/
def unbondingVal : Validator :=
  { operator := opAddr, status := .unbonding, tokens := 100, delegatorShares := 100 }

/-- A validator carrying the zero (`unspecified`) bond status. -/
def unspecVal : Validator :=
  { operator := opAddr, status := .unspecified, tokens := 100, delegatorShares := 100 }

/-- Environment in which the delegator-address encoding fails. -/
def encFailEnv : Env :=
  { goodEnv with bytesToString := fun _ => .error (.msg 1) }

/-- Environment in which the delegation lookup fails with a genuine store
error (not the `NoDelegation` sentinel). -/
def lookupErrEnv : Env :=
  { goodEnv with getDelegation := fun _ _ => .error (.msg 2) }

/-- Environment in which the before-shares-modified hook fails. -/
def bsmFailEnv : Env :=
  { foundEnv with beforeDelegationSharesModified := fun _ _ => some (.msg 3) }

/-- Environment in which the before-delegation-created hook fails. -/
def bcFailEnv : Env :=
  { goodEnv with beforeDelegationCreated := fun _ _ => some (.msg 4) }

/-- Scans a trace and fails iff a `BeforeDelegationCreated` hook call occurs
after a ledger transfer has already been attempted (the accumulator records
whether a ledger call was seen). -/
def createdBeforeLedger : List Event → Bool → Bool
  | [], _ => true
  | e :: rest, seenLedger =>
      if e.isBeforeCreated && seenLedger then false
      else createdBeforeLedger rest (seenLedger || e.isLedger)

/-- Scans a trace and fails iff an `AfterDelegationModified` hook call occurs
before any `SetDelegation` store write (the accumulator records whether a
persist was seen). -/
def modifiedAfterPersist : List Event → Bool → Bool
  | [], _ => true
  | e :: rest, seenSet =>
      if e.isAfterModified && !seenSet then false
      else modifiedAfterPersist rest (seenSet || e.isStoreWrite)

/-- The pre-phase (load-or-create and its hook) succeeds, on either path. -/
def PreOK (env : Env) (delAddr valbz : Bz) (d : Delegation) (s : String) : Prop :=
  (env.getDelegation delAddr valbz = .ok d ∧
   env.beforeDelegationSharesModified delAddr valbz = none) ∨
  (env.getDelegation delAddr valbz = .error .noDelegation ∧
   env.bytesToString delAddr = .ok s ∧
   env.beforeDelegationCreated delAddr valbz = none)

/-- Environment in which operator-address decoding fails. -/
def decodeFailEnv : Env :=
  { goodEnv with stringToBytes := fun _ => .error (.msg 5) }

/-- Environment in which the bond-denomination lookup fails. -/
def denomFailEnv : Env :=
  { foundEnv with bondDenom := .error (.msg 6) }

/-- Environment in which the account-to-pool bank transfer fails. -/
def acctSendFailEnv : Env :=
  { goodEnv with delegateCoinsFromAccountToModule := fun _ _ _ _ => some (.msg 7) }

/-- Environment in which share minting fails after computing 50 shares. -/
def mintFailEnv : Env :=
  { foundEnv with addValidatorTokensAndShares := fun _ _ => (sampleVal, .dec 50, some (.msg 8)) }

/-- Environment in which persisting the delegation record fails. -/
def setFailEnv : Env :=
  { foundEnv with setDelegation := fun _ => some (.msg 9) }

/-- Environment in which the after-modification hook fails. -/
def amFailEnv : Env :=
  { foundEnv with afterDelegationModified := fun _ _ => some (.msg 10) }

/-- On the found-delegation path (lookup succeeds, pre-hook succeeds),
`Delegate` reduces to `delegateCore` after the three pre-phase events. -/
theorem delegate_found_core (env : Env) (delAddr : Bz) (bondAmt : ℤ)
    (tokenSrc : BondStatus) (v : Validator) (sub : Bool) (valbz : Bz) (d : Delegation)
    (hinv : v.InvalidExRate = false)
    (hd : env.stringToBytes v.operator = .ok valbz)
    (hg : env.getDelegation delAddr valbz = .ok d)
    (hh : env.beforeDelegationSharesModified delAddr valbz = none) :
    Delegate env delAddr bondAmt tokenSrc v sub =
      delegateCore env delAddr bondAmt tokenSrc v sub valbz d
        [.decodeValAddr v.operator, .storeGetDelegation delAddr valbz,
         .hookBeforeSharesModified delAddr valbz] := by
  simp [Delegate, hinv, hd, hg, hh]

/-- On the first-delegation path (lookup hits the `NoDelegation` sentinel,
encoding and the created-hook succeed), `Delegate` reduces to `delegateCore`
on a fresh zero-share record after the four pre-phase events. -/
theorem delegate_created_core (env : Env) (delAddr : Bz) (bondAmt : ℤ)
    (tokenSrc : BondStatus) (v : Validator) (sub : Bool) (valbz : Bz) (s : String)
    (hinv : v.InvalidExRate = false)
    (hd : env.stringToBytes v.operator = .ok valbz)
    (hg : env.getDelegation delAddr valbz = .error .noDelegation)
    (he : env.bytesToString delAddr = .ok s)
    (hh : env.beforeDelegationCreated delAddr valbz = none) :
    Delegate env delAddr bondAmt tokenSrc v sub =
      delegateCore env delAddr bondAmt tokenSrc v sub valbz
        (NewDelegation s v.operator LegacyDec.zero)
        [.decodeValAddr v.operator, .storeGetDelegation delAddr valbz,
         .encodeDelAddr delAddr, .hookBeforeCreated delAddr valbz] := by
  simp [Delegate, hinv, hd, hg, he, hh]

/-- The mint phase only appends events, and none of them is a ledger call. -/
theorem mintPhase_trace (env : Env) (delAddr : Bz) (bondAmt : ℤ) (v : Validator)
    (valbz : Bz) (d : Delegation) (t : List Event) :
    ∃ u, (mintPhase env delAddr bondAmt v valbz d t).2 = t ++ u ∧ noLedger u = true := by
  unfold mintPhase
  split
  · exact ⟨_, rfl, by simp [noLedger, Event.isLedger]⟩
  · split
    · exact ⟨_, rfl, by simp [noLedger, Event.isLedger]⟩
    · split
      · exact ⟨_, rfl, by simp [noLedger, Event.isLedger]⟩
      · exact ⟨_, rfl, by simp [noLedger, Event.isLedger]⟩

/-- A trace without ledger events filters to nothing under every
ledger-event predicate. -/
theorem noLedger_filters (u : List Event) (h : noLedger u = true) :
    u.filter Event.isLedger = [] ∧ u.filter Event.isModuleTransfer = [] ∧
      u.filter Event.isAccountTransfer = [] := by
  induction u with
  | nil => simp
  | cons e u ih =>
    simp only [noLedger, List.all_cons, Bool.and_eq_true, Bool.not_eq_true'] at h
    have hu := ih (by simpa [noLedger] using h.2)
    cases e <;> simp_all [Event.isLedger, Event.isModuleTransfer, Event.isAccountTransfer,
      List.filter]

/-- Rebalance branch, not-bonded → bonded (line 119–124). -/
theorem liquidity_nb_to_b (env : Env) (delAddr : Bz) (bondAmt : ℤ)
    (tokenSrc : BondStatus) (v : Validator) (denom : String)
    (hb : env.bondDenom = .ok denom)
    (hsrc : tokenSrc = .unbonded ∨ tokenSrc = .unbonding)
    (hbond : v.IsBonded = true) :
    liquidityPhase env delAddr bondAmt tokenSrc v false =
      ([.bondDenomQuery, .ledgerModuleToModule .notBonded .bonded denom bondAmt],
       sendAbort (env.sendCoinsFromModuleToModule .notBonded .bonded denom bondAmt)) := by
  rcases hsrc with h | h <;> subst h <;>
    simp [liquidityPhase, notBondedTokensToBonded, hb, hbond]

/-- Rebalance branch, bonded → not-bonded (line 125–130). -/
theorem liquidity_b_to_nb (env : Env) (delAddr : Bz) (bondAmt : ℤ)
    (v : Validator) (denom : String)
    (hb : env.bondDenom = .ok denom)
    (hbond : v.IsBonded = false) :
    liquidityPhase env delAddr bondAmt .bonded v false =
      ([.bondDenomQuery, .ledgerModuleToModule .bonded .notBonded denom bondAmt],
       sendAbort (env.sendCoinsFromModuleToModule .bonded .notBonded denom bondAmt)) := by
  simp [liquidityPhase, bondedTokensToNotBonded, hb, hbond]

/-- Direct-delegation branch (lines 87–111): transfer from the delegator's
account into the pool determined by the validator's status. -/
theorem liquidity_subtract (env : Env) (delAddr : Bz) (bondAmt : ℤ)
    (tokenSrc : BondStatus) (v : Validator) (denom : String) (pool : Pool)
    (hb : env.bondDenom = .ok denom)
    (hsrc : tokenSrc ≠ .bonded)
    (hpool : poolForStatus v.status = some pool) :
    liquidityPhase env delAddr bondAmt tokenSrc v true =
      ([.bondDenomQuery, .ledgerDelegateToModule delAddr pool denom bondAmt],
       sendAbort (env.delegateCoinsFromAccountToModule delAddr pool denom bondAmt)) := by
  have hne : (tokenSrc == BondStatus.bonded) = false := by
    cases tokenSrc <;> simp_all
  cases hv : v.status with
  | unspecified => rw [hv] at hpool; simp [poolForStatus] at hpool
  | bonded =>
      rw [hv] at hpool; simp [poolForStatus] at hpool; subst hpool
      simp [liquidityPhase, hne, hb, Validator.IsBonded, Validator.IsUnbonding,
        Validator.IsUnbonded, hv]
  | unbonding =>
      rw [hv] at hpool; simp [poolForStatus] at hpool; subst hpool
      simp [liquidityPhase, hne, hb, Validator.IsBonded, Validator.IsUnbonding,
        Validator.IsUnbonded, hv]
  | unbonded =>
      rw [hv] at hpool; simp [poolForStatus] at hpool; subst hpool
      simp [liquidityPhase, hne, hb, Validator.IsBonded, Validator.IsUnbonding,
        Validator.IsUnbonded, hv]

/-- The two do-nothing rebalance branches (lines 115–118). -/
theorem liquidity_noop (env : Env) (delAddr : Bz) (bondAmt : ℤ)
    (tokenSrc : BondStatus) (v : Validator)
    (h : (tokenSrc = .bonded ∧ v.IsBonded = true) ∨
         ((tokenSrc = .unbonded ∨ tokenSrc = .unbonding) ∧ v.IsBonded = false)) :
    liquidityPhase env delAddr bondAmt tokenSrc v false = ([], none) := by
  rcases h with ⟨h1, h2⟩ | ⟨h1, h2⟩
  · subst h1; simp [liquidityPhase, h2]
  · rcases h1 with h1 | h1 <;> subst h1 <;> simp [liquidityPhase, h2]

/-- Panic site of line 89: bonded token source with direct subtraction. -/
theorem liquidity_fatal_src_bonded (env : Env) (delAddr : Bz) (bondAmt : ℤ)
    (v : Validator) :
    liquidityPhase env delAddr bondAmt .bonded v true =
      ([], some (.fatal .tokenSourceBonded)) := by
  simp [liquidityPhase]

/-- Panic site of line 100: unrecognized validator status. -/
theorem liquidity_fatal_status (env : Env) (delAddr : Bz) (bondAmt : ℤ)
    (tokenSrc : BondStatus) (v : Validator)
    (hsrc : tokenSrc ≠ .bonded)
    (hst : v.status = .unspecified) :
    liquidityPhase env delAddr bondAmt tokenSrc v true =
      ([], some (.fatal .invalidValidatorStatus)) := by
  have hne : (tokenSrc == BondStatus.bonded) = false := by
    cases tokenSrc <;> simp_all
  simp [liquidityPhase, hne, hst, Validator.IsBonded, Validator.IsUnbonding,
    Validator.IsUnbonded]

/-- Panic site of line 132: token source outside the enumerated rebalance
combinations. -/
theorem liquidity_fatal_unknown (env : Env) (delAddr : Bz) (bondAmt : ℤ)
    (v : Validator) :
    liquidityPhase env delAddr bondAmt .unspecified v false =
      ([], some (.fatal .unknownTokenSource)) := by
  simp [liquidityPhase]

/-- Reduction of `delegateCore` on an aborting liquidity phase. -/
theorem delegateCore_abort (env : Env) (delAddr : Bz) (bondAmt : ℤ)
    (tokenSrc : BondStatus) (v : Validator) (sub : Bool) (valbz : Bz)
    (d : Delegation) (t t2 : List Event) (out : Outcome)
    (hl : liquidityPhase env delAddr bondAmt tokenSrc v sub = (t2, some out)) :
    delegateCore env delAddr bondAmt tokenSrc v sub valbz d t = (out, t ++ t2) := by
  simp [delegateCore, hl]

/-- Reduction of `delegateCore` when the liquidity phase falls through. -/
theorem delegateCore_cont (env : Env) (delAddr : Bz) (bondAmt : ℤ)
    (tokenSrc : BondStatus) (v : Validator) (sub : Bool) (valbz : Bz)
    (d : Delegation) (t t2 : List Event)
    (hl : liquidityPhase env delAddr bondAmt tokenSrc v sub = (t2, none)) :
    delegateCore env delAddr bondAmt tokenSrc v sub valbz d t =
      mintPhase env delAddr bondAmt v valbz d (t ++ t2) := by
  simp [delegateCore, hl]

/-- The trace of `delegateCore` is the incoming trace, the liquidity-phase
events, then ledger-free events. -/
theorem delegateCore_trace (env : Env) (delAddr : Bz) (bondAmt : ℤ)
    (tokenSrc : BondStatus) (v : Validator) (sub : Bool) (valbz : Bz)
    (d : Delegation) (t : List Event) :
    ∃ u, (delegateCore env delAddr bondAmt tokenSrc v sub valbz d t).2 =
        t ++ (liquidityPhase env delAddr bondAmt tokenSrc v sub).1 ++ u ∧
      noLedger u = true := by
  rcases hl : liquidityPhase env delAddr bondAmt tokenSrc v sub with ⟨t2, out?⟩
  cases out? with
  | some out =>
      exact ⟨[], by simp [delegateCore_abort env delAddr bondAmt tokenSrc v sub valbz d t t2
        out hl, hl], rfl⟩
  | none =>
      obtain ⟨u, hu, hnl⟩ := mintPhase_trace env delAddr bondAmt v valbz d (t ++ t2)
      exact ⟨u, by simp [delegateCore_cont env delAddr bondAmt tokenSrc v sub valbz d t t2 hl,
        hu, hl], hnl⟩

/-- The mint phase always records the share-minting call. -/
theorem mintPhase_mint_mem (env : Env) (delAddr : Bz) (bondAmt : ℤ) (v : Validator)
    (valbz : Bz) (d : Delegation) (t : List Event) :
    Event.mintShares v bondAmt ∈ (mintPhase env delAddr bondAmt v valbz d t).2 := by
  unfold mintPhase
  split
  · simp
  · split
    · simp
    · split <;> simp

/-- When the pre-phase succeeds (on either the found or the first-delegation
path), the whole trace of `Delegate` is a ledger-free prefix, the
liquidity-phase events, then a ledger-free suffix. -/
theorem delegate_trace_split (env : Env) (delAddr : Bz) (bondAmt : ℤ)
    (tokenSrc : BondStatus) (v : Validator) (sub : Bool) (valbz : Bz)
    (d : Delegation) (s : String)
    (hinv : v.InvalidExRate = false)
    (hd : env.stringToBytes v.operator = .ok valbz)
    (hpre : (env.getDelegation delAddr valbz = .ok d ∧
             env.beforeDelegationSharesModified delAddr valbz = none) ∨
            (env.getDelegation delAddr valbz = .error .noDelegation ∧
             env.bytesToString delAddr = .ok s ∧
             env.beforeDelegationCreated delAddr valbz = none)) :
    ∃ pre u, (Delegate env delAddr bondAmt tokenSrc v sub).2 =
        pre ++ (liquidityPhase env delAddr bondAmt tokenSrc v sub).1 ++ u ∧
      noLedger pre = true ∧ noLedger u = true := by
  rcases hpre with ⟨hg, hh⟩ | ⟨hg, he, hh⟩
  · rw [delegate_found_core env delAddr bondAmt tokenSrc v sub valbz d hinv hd hg hh]
    obtain ⟨u, hu, hnl⟩ := delegateCore_trace env delAddr bondAmt tokenSrc v sub valbz d _
    exact ⟨_, u, hu, by simp [noLedger, Event.isLedger], hnl⟩
  · rw [delegate_created_core env delAddr bondAmt tokenSrc v sub valbz s hinv hd hg he hh]
    obtain ⟨u, hu, hnl⟩ := delegateCore_trace env delAddr bondAmt tokenSrc v sub valbz _ _
    exact ⟨_, u, hu, by simp [noLedger, Event.isLedger], hnl⟩

/-- C1: a validator with an invalid exchange rate makes `Delegate` return the
`InvalidExchangeRate` error with zero shares and an empty trace — no address
decoding, no store lookup or write, no ledger transfer, no hook call. -/
theorem delegate_invalid_exrate_gate (env : Env) (delAddr : Bz) (bondAmt : ℤ)
    (tokenSrc : BondStatus) (v : Validator) (sub : Bool)
    (h : v.InvalidExRate = true) :
    Delegate env delAddr bondAmt tokenSrc v sub
      = (.ret LegacyDec.zero (some .exRateInvalid), []) := by
  simp [Delegate, h]

/-- Witness for C1 at a concrete slashed-to-zero validator. -/
theorem delegate_invalid_exrate_gate_witness :
    invalidVal.InvalidExRate = true ∧
    Delegate goodEnv delBz 100 .unbonded invalidVal true
      = (.ret LegacyDec.zero (some .exRateInvalid), []) :=
  ⟨by decide,
   delegate_invalid_exrate_gate goodEnv delBz 100 .unbonded invalidVal true (by decide)⟩

/-- C2: with `subtractAccount = false` and the pre-phase succeeding, the
rebalance branch performs exactly one pool-to-pool transfer of `bondAmt` —
not-bonded → bonded when the token source is `unbonded`/`unbonding` and the
validator is bonded, bonded → not-bonded when the source is `bonded` and the
validator is not bonded. -/
theorem delegate_pool_rebalance (env : Env) (delAddr : Bz) (bondAmt : ℤ)
    (tokenSrc : BondStatus) (v : Validator) (valbz : Bz) (d : Delegation)
    (s denom : String)
    (hinv : v.InvalidExRate = false)
    (hd : env.stringToBytes v.operator = .ok valbz)
    (hpre : (env.getDelegation delAddr valbz = .ok d ∧
             env.beforeDelegationSharesModified delAddr valbz = none) ∨
            (env.getDelegation delAddr valbz = .error .noDelegation ∧
             env.bytesToString delAddr = .ok s ∧
             env.beforeDelegationCreated delAddr valbz = none))
    (hb : env.bondDenom = .ok denom) :
    ((tokenSrc = .unbonded ∨ tokenSrc = .unbonding) → v.IsBonded = true →
      ((Delegate env delAddr bondAmt tokenSrc v false).2).filter Event.isModuleTransfer =
        [.ledgerModuleToModule .notBonded .bonded denom bondAmt]) ∧
    (tokenSrc = .bonded → v.IsBonded = false →
      ((Delegate env delAddr bondAmt tokenSrc v false).2).filter Event.isModuleTransfer =
        [.ledgerModuleToModule .bonded .notBonded denom bondAmt]) := by
  obtain ⟨pre, u, htr, hpe, hul⟩ :=
    delegate_trace_split env delAddr bondAmt tokenSrc v false valbz d s hinv hd hpre
  constructor
  · intro hsrc hbond
    rw [htr, liquidity_nb_to_b env delAddr bondAmt tokenSrc v denom hb hsrc hbond]
    simp [List.filter_append, (noLedger_filters pre hpe).2.1, (noLedger_filters u hul).2.1,
      Event.isModuleTransfer]
  · intro hsrc hbond
    subst hsrc
    rw [htr, liquidity_b_to_nb env delAddr bondAmt v denom hb hbond]
    simp [List.filter_append, (noLedger_filters pre hpe).2.1, (noLedger_filters u hul).2.1,
      Event.isModuleTransfer]

/-- Witness for C2 on both rebalance directions, at concrete inputs. -/
theorem delegate_pool_rebalance_witness :
    ((Delegate foundEnv delBz 50 .unbonded sampleVal false).2).filter Event.isModuleTransfer =
      [.ledgerModuleToModule .notBonded .bonded stakeDenom 50] ∧
    ((Delegate foundEnv delBz 50 .bonded unbondingVal false).2).filter Event.isModuleTransfer =
      [.ledgerModuleToModule .bonded .notBonded stakeDenom 50] :=
  ⟨(delegate_pool_rebalance foundEnv delBz 50 .unbonded sampleVal valBz sampleDel delStr
      stakeDenom (by decide) rfl (Or.inl ⟨rfl, rfl⟩) rfl).1 (Or.inl rfl) (by decide),
   (delegate_pool_rebalance foundEnv delBz 50 .bonded unbondingVal valBz sampleDel delStr
      stakeDenom (by decide) rfl (Or.inl ⟨rfl, rfl⟩) rfl).2 rfl (by decide)⟩

/-- C3: with `subtractAccount = true` and a non-bonded token source, exactly
one account-to-pool transfer of `bondAmt` is performed, and its destination is
the pool `poolForStatus` assigns to the validator's status — the bonded pool
for a bonded validator, the not-bonded pool for an unbonding or unbonded
one. -/
theorem delegate_direct_routing (env : Env) (delAddr : Bz) (bondAmt : ℤ)
    (tokenSrc : BondStatus) (v : Validator) (valbz : Bz) (d : Delegation)
    (s denom : String) (pool : Pool)
    (hinv : v.InvalidExRate = false)
    (hd : env.stringToBytes v.operator = .ok valbz)
    (hpre : (env.getDelegation delAddr valbz = .ok d ∧
             env.beforeDelegationSharesModified delAddr valbz = none) ∨
            (env.getDelegation delAddr valbz = .error .noDelegation ∧
             env.bytesToString delAddr = .ok s ∧
             env.beforeDelegationCreated delAddr valbz = none))
    (hb : env.bondDenom = .ok denom)
    (hsrc : tokenSrc ≠ .bonded)
    (hpool : poolForStatus v.status = some pool) :
    ((Delegate env delAddr bondAmt tokenSrc v true).2).filter Event.isAccountTransfer =
      [.ledgerDelegateToModule delAddr pool denom bondAmt] := by
  obtain ⟨pre, u, htr, hpe, hul⟩ :=
    delegate_trace_split env delAddr bondAmt tokenSrc v true valbz d s hinv hd hpre
  rw [htr, liquidity_subtract env delAddr bondAmt tokenSrc v denom pool hb hsrc hpool]
  simp [List.filter_append, (noLedger_filters pre hpe).2.2, (noLedger_filters u hul).2.2,
    Event.isAccountTransfer]

/-- Witness for C3: a bonded and an unbonding validator route the account
transfer to the bonded and not-bonded pool respectively. -/
theorem delegate_direct_routing_witness :
    ((Delegate goodEnv delBz 100 .unbonded sampleVal true).2).filter Event.isAccountTransfer =
      [.ledgerDelegateToModule delBz .bonded stakeDenom 100] ∧
    ((Delegate goodEnv delBz 100 .unbonded unbondingVal true).2).filter Event.isAccountTransfer =
      [.ledgerDelegateToModule delBz .notBonded stakeDenom 100] :=
  ⟨delegate_direct_routing goodEnv delBz 100 .unbonded sampleVal valBz sampleDel delStr
      stakeDenom .bonded (by decide) rfl (Or.inr ⟨rfl, rfl, rfl⟩) rfl (by decide) rfl,
   delegate_direct_routing goodEnv delBz 100 .unbonded unbondingVal valBz sampleDel delStr
      stakeDenom .notBonded (by decide) rfl (Or.inr ⟨rfl, rfl, rfl⟩) rfl (by decide) rfl⟩

/-- C8: in the two do-nothing rebalance branches (`subtractAccount = false`
with a bonded source and a bonded validator, or an unbonded/unbonding source
and a non-bonded validator), the trace contains no ledger transfer of any
kind, and share minting still proceeds. -/
theorem delegate_noop_branches (env : Env) (delAddr : Bz) (bondAmt : ℤ)
    (tokenSrc : BondStatus) (v : Validator) (valbz : Bz) (d : Delegation) (s : String)
    (hinv : v.InvalidExRate = false)
    (hd : env.stringToBytes v.operator = .ok valbz)
    (hpre : (env.getDelegation delAddr valbz = .ok d ∧
             env.beforeDelegationSharesModified delAddr valbz = none) ∨
            (env.getDelegation delAddr valbz = .error .noDelegation ∧
             env.bytesToString delAddr = .ok s ∧
             env.beforeDelegationCreated delAddr valbz = none))
    (hc : (tokenSrc = .bonded ∧ v.IsBonded = true) ∨
          ((tokenSrc = .unbonded ∨ tokenSrc = .unbonding) ∧ v.IsBonded = false)) :
    ((Delegate env delAddr bondAmt tokenSrc v false).2).filter Event.isLedger = [] ∧
      Event.mintShares v bondAmt ∈ (Delegate env delAddr bondAmt tokenSrc v false).2 := by
  have hl := liquidity_noop env delAddr bondAmt tokenSrc v hc
  obtain ⟨pre, u, htr, hpe, hul⟩ :=
    delegate_trace_split env delAddr bondAmt tokenSrc v false valbz d s hinv hd hpre
  constructor
  · rw [htr, hl]
    simp [List.filter_append, (noLedger_filters pre hpe).1, (noLedger_filters u hul).1]
  · rcases hpre with ⟨hg, hh⟩ | ⟨hg, he, hh⟩
    · rw [delegate_found_core env delAddr bondAmt tokenSrc v false valbz d hinv hd hg hh,
        delegateCore_cont env delAddr bondAmt tokenSrc v false valbz d _ [] hl]
      exact mintPhase_mint_mem env delAddr bondAmt v valbz d _
    · rw [delegate_created_core env delAddr bondAmt tokenSrc v false valbz s hinv hd hg he hh,
        delegateCore_cont env delAddr bondAmt tokenSrc v false valbz _ _ [] hl]
      exact mintPhase_mint_mem env delAddr bondAmt v valbz _ _

/-- Witness for C8 on both do-nothing branches. -/
theorem delegate_noop_branches_witness :
    (((Delegate foundEnv delBz 50 .bonded sampleVal false).2).filter Event.isLedger = [] ∧
      Event.mintShares sampleVal 50 ∈ (Delegate foundEnv delBz 50 .bonded sampleVal false).2) ∧
    (((Delegate foundEnv delBz 50 .unbonded unbondingVal false).2).filter Event.isLedger = [] ∧
      Event.mintShares unbondingVal 50 ∈
        (Delegate foundEnv delBz 50 .unbonded unbondingVal false).2) :=
  ⟨delegate_noop_branches foundEnv delBz 50 .bonded sampleVal valBz sampleDel delStr
      (by decide) rfl (Or.inl ⟨rfl, rfl⟩) (Or.inl ⟨rfl, by decide⟩),
   delegate_noop_branches foundEnv delBz 50 .unbonded unbondingVal valBz sampleDel delStr
      (by decide) rfl (Or.inl ⟨rfl, rfl⟩) (Or.inr ⟨Or.inl rfl, by decide⟩)⟩

/-- C4: a bonded token source under direct subtraction, an unrecognized
validator status under direct subtraction, and a token-source/status
combination outside the four enumerated rebalance cases all abort fatally via
`panic` instead of returning an error value. -/
theorem delegate_contract_violation (env : Env) (delAddr : Bz) (bondAmt : ℤ)
    (tokenSrc : BondStatus) (v : Validator) (sub : Bool) (valbz : Bz)
    (d : Delegation) (s : String)
    (hinv : v.InvalidExRate = false)
    (hd : env.stringToBytes v.operator = .ok valbz)
    (hpre : (env.getDelegation delAddr valbz = .ok d ∧
             env.beforeDelegationSharesModified delAddr valbz = none) ∨
            (env.getDelegation delAddr valbz = .error .noDelegation ∧
             env.bytesToString delAddr = .ok s ∧
             env.beforeDelegationCreated delAddr valbz = none))
    (hc : (sub = true ∧ tokenSrc = .bonded) ∨
          (sub = true ∧ v.status = .unspecified) ∨
          (sub = false ∧ tokenSrc = .unspecified)) :
    ∃ m, (Delegate env delAddr bondAmt tokenSrc v sub).1 = .fatal m := by
  have hcore : ∀ (d' : Delegation) (t : List Event),
      ∃ m, (delegateCore env delAddr bondAmt tokenSrc v sub valbz d' t).1 = .fatal m := by
    intro d' t
    rcases hc with ⟨hs, hb'⟩ | ⟨hs, hv⟩ | ⟨hs, hb'⟩
    · subst hs; subst hb'
      rw [delegateCore_abort env delAddr bondAmt .bonded v true valbz d' t [] _
        (liquidity_fatal_src_bonded env delAddr bondAmt v)]
      exact ⟨_, rfl⟩
    · subst hs
      by_cases hsb : tokenSrc = .bonded
      · subst hsb
        rw [delegateCore_abort env delAddr bondAmt .bonded v true valbz d' t [] _
          (liquidity_fatal_src_bonded env delAddr bondAmt v)]
        exact ⟨_, rfl⟩
      · rw [delegateCore_abort env delAddr bondAmt tokenSrc v true valbz d' t [] _
          (liquidity_fatal_status env delAddr bondAmt tokenSrc v hsb hv)]
        exact ⟨_, rfl⟩
    · subst hs; subst hb'
      rw [delegateCore_abort env delAddr bondAmt .unspecified v false valbz d' t [] _
        (liquidity_fatal_unknown env delAddr bondAmt v)]
      exact ⟨_, rfl⟩
  rcases hpre with ⟨hg, hh⟩ | ⟨hg, he, hh⟩
  · rw [delegate_found_core env delAddr bondAmt tokenSrc v sub valbz d hinv hd hg hh]
    exact hcore d _
  · rw [delegate_created_core env delAddr bondAmt tokenSrc v sub valbz s hinv hd hg he hh]
    exact hcore _ _

/-- Witness for C4 at all three panic sites. -/
theorem delegate_contract_violation_witness :
    (∃ m, (Delegate goodEnv delBz 10 .bonded sampleVal true).1 = .fatal m) ∧
    (∃ m, (Delegate goodEnv delBz 10 .unbonded unspecVal true).1 = .fatal m) ∧
    (∃ m, (Delegate goodEnv delBz 10 .unspecified sampleVal false).1 = .fatal m) :=
  ⟨delegate_contract_violation goodEnv delBz 10 .bonded sampleVal true valBz sampleDel
      delStr (by decide) rfl (Or.inr ⟨rfl, rfl, rfl⟩) (Or.inl ⟨rfl, rfl⟩),
   delegate_contract_violation goodEnv delBz 10 .unbonded unspecVal true valBz sampleDel
      delStr (by decide) rfl (Or.inr ⟨rfl, rfl, rfl⟩) (Or.inr (Or.inl ⟨rfl, rfl⟩)),
   delegate_contract_violation goodEnv delBz 10 .unspecified sampleVal false valBz sampleDel
      delStr (by decide) rfl (Or.inr ⟨rfl, rfl, rfl⟩) (Or.inr (Or.inr ⟨rfl, rfl⟩))⟩

/-- C5: load-or-create behaviour of `Delegate` — a successful lookup fires the
before-shares-modified hook; the `NoDelegation` sentinel leads to encoding
the delegator address (an encode failure is returned with nothing further
done), constructing a zero-share record and firing the
before-delegation-created hook; any other lookup error is returned unchanged;
and a failing pre-hook aborts with exactly the pre-phase events, so no ledger
transfer and no store write happen. -/
theorem delegate_load_or_create (env : Env) (delAddr : Bz) (bondAmt : ℤ)
    (tokenSrc : BondStatus) (v : Validator) (sub : Bool) (valbz : Bz)
    (hinv : v.InvalidExRate = false)
    (hd : env.stringToBytes v.operator = .ok valbz) :
    (∀ d, env.getDelegation delAddr valbz = .ok d →
       Event.hookBeforeSharesModified delAddr valbz ∈
         (Delegate env delAddr bondAmt tokenSrc v sub).2) ∧
    (∀ e1, env.getDelegation delAddr valbz = .error .noDelegation →
       env.bytesToString delAddr = .error e1 →
       Delegate env delAddr bondAmt tokenSrc v sub =
         (.ret .nil (some e1),
          [.decodeValAddr v.operator, .storeGetDelegation delAddr valbz,
           .encodeDelAddr delAddr])) ∧
    (∀ s, env.getDelegation delAddr valbz = .error .noDelegation →
       env.bytesToString delAddr = .ok s →
       Event.hookBeforeCreated delAddr valbz ∈
         (Delegate env delAddr bondAmt tokenSrc v sub).2) ∧
    (∀ s, env.getDelegation delAddr valbz = .error .noDelegation →
       env.bytesToString delAddr = .ok s →
       env.beforeDelegationCreated delAddr valbz = none →
       Delegate env delAddr bondAmt tokenSrc v sub =
         delegateCore env delAddr bondAmt tokenSrc v sub valbz
           (NewDelegation s v.operator LegacyDec.zero)
           [.decodeValAddr v.operator, .storeGetDelegation delAddr valbz,
            .encodeDelAddr delAddr, .hookBeforeCreated delAddr valbz]) ∧
    (∀ e, e ≠ .noDelegation → env.getDelegation delAddr valbz = .error e →
       Delegate env delAddr bondAmt tokenSrc v sub =
         (.ret LegacyDec.zero (some e),
          [.decodeValAddr v.operator, .storeGetDelegation delAddr valbz])) ∧
    (∀ d e, env.getDelegation delAddr valbz = .ok d →
       env.beforeDelegationSharesModified delAddr valbz = some e →
       Delegate env delAddr bondAmt tokenSrc v sub =
         (.ret LegacyDec.zero (some e),
          [.decodeValAddr v.operator, .storeGetDelegation delAddr valbz,
           .hookBeforeSharesModified delAddr valbz])) ∧
    (∀ s e, env.getDelegation delAddr valbz = .error .noDelegation →
       env.bytesToString delAddr = .ok s →
       env.beforeDelegationCreated delAddr valbz = some e →
       Delegate env delAddr bondAmt tokenSrc v sub =
         (.ret LegacyDec.zero (some e),
          [.decodeValAddr v.operator, .storeGetDelegation delAddr valbz,
           .encodeDelAddr delAddr, .hookBeforeCreated delAddr valbz])) := by
  refine ⟨?_, ?_, ?_, ?_, ?_, ?_, ?_⟩
  · intro d hg
    cases hh : env.beforeDelegationSharesModified delAddr valbz with
    | some e => simp [Delegate, hinv, hd, hg, hh]
    | none =>
        rw [delegate_found_core env delAddr bondAmt tokenSrc v sub valbz d hinv hd hg hh]
        obtain ⟨u, hu, _⟩ := delegateCore_trace env delAddr bondAmt tokenSrc v sub valbz d _
        rw [hu]; simp
  · intro e1 hg he
    simp [Delegate, hinv, hd, hg, he]
  · intro s hg he
    cases hh : env.beforeDelegationCreated delAddr valbz with
    | some e => simp [Delegate, hinv, hd, hg, he, hh]
    | none =>
        rw [delegate_created_core env delAddr bondAmt tokenSrc v sub valbz s hinv hd hg he hh]
        obtain ⟨u, hu, _⟩ := delegateCore_trace env delAddr bondAmt tokenSrc v sub valbz _ _
        rw [hu]; simp
  · intro s hg he hh
    exact delegate_created_core env delAddr bondAmt tokenSrc v sub valbz s hinv hd hg he hh
  · intro e hne hg
    cases e with
    | noDelegation => exact absurd rfl hne
    | exRateInvalid => simp [Delegate, hinv, hd, hg]
    | msg n => simp [Delegate, hinv, hd, hg]
  · intro d e hg hh
    simp [Delegate, hinv, hd, hg, hh]
  · intro s e hg he hh
    simp [Delegate, hinv, hd, hg, he, hh]

/-- Witness for C5 at concrete environments for each branch. -/
theorem delegate_load_or_create_witness :
    Event.hookBeforeSharesModified delBz valBz ∈
      (Delegate foundEnv delBz 10 .unbonded sampleVal true).2 ∧
    Delegate encFailEnv delBz 10 .unbonded sampleVal true =
      (.ret .nil (some (.msg 1)),
       [.decodeValAddr opAddr, .storeGetDelegation delBz valBz, .encodeDelAddr delBz]) ∧
    Event.hookBeforeCreated delBz valBz ∈
      (Delegate goodEnv delBz 10 .unbonded sampleVal true).2 ∧
    Delegate lookupErrEnv delBz 10 .unbonded sampleVal true =
      (.ret LegacyDec.zero (some (.msg 2)),
       [.decodeValAddr opAddr, .storeGetDelegation delBz valBz]) ∧
    Delegate bsmFailEnv delBz 10 .unbonded sampleVal true =
      (.ret LegacyDec.zero (some (.msg 3)),
       [.decodeValAddr opAddr, .storeGetDelegation delBz valBz,
        .hookBeforeSharesModified delBz valBz]) ∧
    Delegate bcFailEnv delBz 10 .unbonded sampleVal true =
      (.ret LegacyDec.zero (some (.msg 4)),
       [.decodeValAddr opAddr, .storeGetDelegation delBz valBz,
        .encodeDelAddr delBz, .hookBeforeCreated delBz valBz]) :=
  ⟨(delegate_load_or_create foundEnv delBz 10 .unbonded sampleVal true valBz
      (by decide) rfl).1 sampleDel rfl,
   (delegate_load_or_create encFailEnv delBz 10 .unbonded sampleVal true valBz
      (by decide) rfl).2.1 (.msg 1) rfl rfl,
   (delegate_load_or_create goodEnv delBz 10 .unbonded sampleVal true valBz
      (by decide) rfl).2.2.1 delStr rfl rfl,
   (delegate_load_or_create lookupErrEnv delBz 10 .unbonded sampleVal true valBz
      (by decide) rfl).2.2.2.2.1 (.msg 2) (by decide) rfl,
   (delegate_load_or_create bsmFailEnv delBz 10 .unbonded sampleVal true valBz
      (by decide) rfl).2.2.2.2.2.1 sampleDel (.msg 3) rfl rfl,
   (delegate_load_or_create bcFailEnv delBz 10 .unbonded sampleVal true valBz
      (by decide) rfl).2.2.2.2.2.2 delStr (.msg 4) rfl rfl rfl⟩

/-- Mapping `List.all` distributes over a conjunction of predicates. -/
theorem all_split (p q : Event → Bool) (t : List Event) :
    t.all (fun e => p e && q e) = (t.all p && t.all q) := by
  induction t with
  | nil => rfl
  | cons e t ih =>
      simp only [List.all_cons, ih]
      cases p e <;> cases q e <;> simp

/-- A list on which `p` never holds has `any p = false`. -/
theorem any_eq_false_of_all_not (p : Event → Bool) (t : List Event)
    (h : t.all (fun e => !p e) = true) : t.any p = false := by
  induction t with
  | nil => rfl
  | cons e t ih =>
      simp only [List.all_cons, Bool.and_eq_true, Bool.not_eq_true'] at h
      simp [List.any_cons, h.1, ih h.2]

/-- Scan `createdBeforeLedger` splits over append. -/
theorem createdBeforeLedger_append (a b : List Event) (s : Bool) :
    createdBeforeLedger (a ++ b) s =
      (createdBeforeLedger a s && createdBeforeLedger b (s || a.any Event.isLedger)) := by
  induction a generalizing s with
  | nil => simp [createdBeforeLedger]
  | cons e a ih =>
      simp only [List.cons_append, createdBeforeLedger, List.any_cons, List.append_eq]
      by_cases hc : (e.isBeforeCreated && s) = true
      · simp [hc]
      · simp only [if_neg hc]
        rw [ih, Bool.or_assoc]

/-- Scan `modifiedAfterPersist` splits over append. -/
theorem modifiedAfterPersist_append (a b : List Event) (s : Bool) :
    modifiedAfterPersist (a ++ b) s =
      (modifiedAfterPersist a s && modifiedAfterPersist b (s || a.any Event.isStoreWrite)) := by
  induction a generalizing s with
  | nil => simp [modifiedAfterPersist]
  | cons e a ih =>
      simp only [List.cons_append, modifiedAfterPersist, List.any_cons, List.append_eq]
      by_cases hc : (e.isAfterModified && !s) = true
      · simp [hc]
      · simp only [if_neg hc]
        rw [ih, Bool.or_assoc]

/-- A trace with no created-hook call passes `createdBeforeLedger` from any
accumulator state. -/
theorem cBL_of_no_created (t : List Event)
    (h : t.all (fun e => !e.isBeforeCreated) = true) :
    ∀ s, createdBeforeLedger t s = true := by
  induction t with
  | nil => intro s; rfl
  | cons e t ih =>
      intro s
      simp only [List.all_cons, Bool.and_eq_true, Bool.not_eq_true'] at h
      simp [createdBeforeLedger, h.1, ih h.2]

/-- A trace with no ledger call passes `createdBeforeLedger` when no ledger
call was seen before it. -/
theorem cBL_of_no_ledger (t : List Event)
    (h : t.all (fun e => !e.isLedger) = true) :
    createdBeforeLedger t false = true := by
  induction t with
  | nil => rfl
  | cons e t ih =>
      simp only [List.all_cons, Bool.and_eq_true, Bool.not_eq_true'] at h
      simp [createdBeforeLedger, h.1, ih h.2]

/-- A trace with no after-modified hook call passes `modifiedAfterPersist`
from any accumulator state. -/
theorem mAP_of_no_am (t : List Event)
    (h : t.all (fun e => !e.isAfterModified) = true) :
    ∀ s, modifiedAfterPersist t s = true := by
  induction t with
  | nil => intro s; rfl
  | cons e t ih =>
      intro s
      simp only [List.all_cons, Bool.and_eq_true, Bool.not_eq_true'] at h
      simp [modifiedAfterPersist, h.1, ih h.2]

/-- The liquidity phase records no created-hook, no after-modified hook and
no store write. -/
theorem liquidityPhase_events (env : Env) (delAddr : Bz) (bondAmt : ℤ)
    (tokenSrc : BondStatus) (v : Validator) (sub : Bool) :
    ((liquidityPhase env delAddr bondAmt tokenSrc v sub).1).all
      (fun e => !e.isBeforeCreated && !e.isAfterModified && !e.isStoreWrite) = true := by
  unfold liquidityPhase notBondedTokensToBonded bondedTokensToNotBonded
  repeat' split
  all_goals rfl

/-- The events the mint phase appends: no ledger call, no created-hook, and
every after-modified hook strictly after a store write. -/
theorem mintPhase_suffix (env : Env) (delAddr : Bz) (bondAmt : ℤ) (v : Validator)
    (valbz : Bz) (d : Delegation) (t : List Event) :
    ∃ u, (mintPhase env delAddr bondAmt v valbz d t).2 = t ++ u ∧
      noLedger u = true ∧ u.all (fun e => !e.isBeforeCreated) = true ∧
      modifiedAfterPersist u false = true := by
  unfold mintPhase
  split
  · exact ⟨_, rfl, rfl, rfl, rfl⟩
  · split
    · exact ⟨_, rfl, rfl, rfl, rfl⟩
    · split
      · exact ⟨_, rfl, rfl, rfl, rfl⟩
      · exact ⟨_, rfl, rfl, rfl, rfl⟩

/-- Every trace of `Delegate` decomposes into a ledger-free, write-free,
after-hook-free prefix, the liquidity-phase events (which contain no
created-hook, no after-hook and no store write), and a mint-phase suffix. -/
theorem delegate_trace_general (env : Env) (delAddr : Bz) (bondAmt : ℤ)
    (tokenSrc : BondStatus) (v : Validator) (sub : Bool) :
    ∃ pre t2 u, (Delegate env delAddr bondAmt tokenSrc v sub).2 = pre ++ (t2 ++ u) ∧
      pre.all (fun e => !e.isLedger && !e.isAfterModified && !e.isStoreWrite) = true ∧
      t2.all (fun e => !e.isBeforeCreated && !e.isAfterModified && !e.isStoreWrite) = true ∧
      noLedger u = true ∧ u.all (fun e => !e.isBeforeCreated) = true ∧
      modifiedAfterPersist u false = true := by
  have hcore : ∀ (valbz : Bz) (d : Delegation) (t : List Event),
      ∃ t2 u, (delegateCore env delAddr bondAmt tokenSrc v sub valbz d t).2 = t ++ (t2 ++ u) ∧
        t2.all (fun e => !e.isBeforeCreated && !e.isAfterModified && !e.isStoreWrite) = true ∧
        noLedger u = true ∧ u.all (fun e => !e.isBeforeCreated) = true ∧
        modifiedAfterPersist u false = true := by
    intro valbz d t
    rcases hl : liquidityPhase env delAddr bondAmt tokenSrc v sub with ⟨t2, o⟩
    have ht2 : t2.all
        (fun e => !e.isBeforeCreated && !e.isAfterModified && !e.isStoreWrite) = true := by
      have h := liquidityPhase_events env delAddr bondAmt tokenSrc v sub
      rwa [hl] at h
    cases o with
    | some out =>
        refine ⟨t2, [], ?_, ht2, rfl, rfl, rfl⟩
        rw [delegateCore_abort env delAddr bondAmt tokenSrc v sub valbz d t t2 out hl]
        simp
    | none =>
        obtain ⟨u, hu, hnl, hbcu, hmap⟩ := mintPhase_suffix env delAddr bondAmt v valbz d (t ++ t2)
        refine ⟨t2, u, ?_, ht2, hnl, hbcu, hmap⟩
        rw [delegateCore_cont env delAddr bondAmt tokenSrc v sub valbz d t t2 hl, hu]
        simp
  cases hinv : v.InvalidExRate with
  | true => exact ⟨[], [], [], by simp [Delegate, hinv], rfl, rfl, rfl, rfl, rfl⟩
  | false =>
    cases hdec : env.stringToBytes v.operator with
    | error e =>
        exact ⟨[.decodeValAddr v.operator], [], [],
          by simp [Delegate, hinv, hdec], rfl, rfl, rfl, rfl, rfl⟩
    | ok valbz =>
      cases hg : env.getDelegation delAddr valbz with
      | ok d =>
        cases hh : env.beforeDelegationSharesModified delAddr valbz with
        | some e =>
            exact ⟨[.decodeValAddr v.operator, .storeGetDelegation delAddr valbz,
              .hookBeforeSharesModified delAddr valbz], [], [],
              by simp [Delegate, hinv, hdec, hg, hh], rfl, rfl, rfl, rfl, rfl⟩
        | none =>
            obtain ⟨t2, u, hsh, ht2, hnl, hbcu, hmap⟩ := hcore valbz d
              [.decodeValAddr v.operator, .storeGetDelegation delAddr valbz,
               .hookBeforeSharesModified delAddr valbz]
            refine ⟨[.decodeValAddr v.operator, .storeGetDelegation delAddr valbz,
              .hookBeforeSharesModified delAddr valbz], t2, u, ?_, rfl, ht2, hnl, hbcu, hmap⟩
            rw [delegate_found_core env delAddr bondAmt tokenSrc v sub valbz d hinv hdec hg hh]
            exact hsh
      | error e =>
        cases e with
        | noDelegation =>
          cases henc : env.bytesToString delAddr with
          | error e1 =>
              exact ⟨[.decodeValAddr v.operator, .storeGetDelegation delAddr valbz,
                .encodeDelAddr delAddr], [], [],
                by simp [Delegate, hinv, hdec, hg, henc], rfl, rfl, rfl, rfl, rfl⟩
          | ok s =>
            cases hh : env.beforeDelegationCreated delAddr valbz with
            | some e =>
                exact ⟨[.decodeValAddr v.operator, .storeGetDelegation delAddr valbz,
                  .encodeDelAddr delAddr, .hookBeforeCreated delAddr valbz], [], [],
                  by simp [Delegate, hinv, hdec, hg, henc, hh], rfl, rfl, rfl, rfl, rfl⟩
            | none =>
                obtain ⟨t2, u, hsh, ht2, hnl, hbcu, hmap⟩ := hcore valbz
                  (NewDelegation s v.operator LegacyDec.zero)
                  [.decodeValAddr v.operator, .storeGetDelegation delAddr valbz,
                   .encodeDelAddr delAddr, .hookBeforeCreated delAddr valbz]
                refine ⟨[.decodeValAddr v.operator, .storeGetDelegation delAddr valbz,
                  .encodeDelAddr delAddr, .hookBeforeCreated delAddr valbz], t2, u, ?_, rfl,
                  ht2, hnl, hbcu, hmap⟩
                rw [delegate_created_core env delAddr bondAmt tokenSrc v sub valbz s hinv hdec
                  hg henc hh]
                exact hsh
        | exRateInvalid =>
            exact ⟨[.decodeValAddr v.operator, .storeGetDelegation delAddr valbz], [], [],
              by simp [Delegate, hinv, hdec, hg], rfl, rfl, rfl, rfl, rfl⟩
        | msg n =>
            exact ⟨[.decodeValAddr v.operator, .storeGetDelegation delAddr valbz], [], [],
              by simp [Delegate, hinv, hdec, hg], rfl, rfl, rfl, rfl, rfl⟩

/-- Splits a combined three-way event predicate into its components. -/
theorem all_three_comp (p q r : Event → Bool) (t : List Event)
    (h : t.all (fun e => p e && q e && r e) = true) :
    t.all p = true ∧ t.all q = true ∧ t.all r = true := by
  refine ⟨?_, ?_, ?_⟩ <;>
    · simp only [List.all_eq_true] at h ⊢
      intro e he
      have h2 := h e he
      simp only [Bool.and_eq_true] at h2
      tauto

/-- C6: in every run of `Delegate`, any `BeforeDelegationCreated` hook call
precedes every ledger transfer, and any `AfterDelegationModified` hook call
comes strictly after the delegation record was persisted by `SetDelegation`;
moreover on the first-time path (lookup reports `NoDelegation`, encoding
succeeds) the created-hook does fire. -/
theorem delegate_hook_ordering (env : Env) (delAddr : Bz) (bondAmt : ℤ)
    (tokenSrc : BondStatus) (v : Validator) (sub : Bool) :
    createdBeforeLedger (Delegate env delAddr bondAmt tokenSrc v sub).2 false = true ∧
    modifiedAfterPersist (Delegate env delAddr bondAmt tokenSrc v sub).2 false = true ∧
    (∀ valbz s, v.InvalidExRate = false →
       env.stringToBytes v.operator = .ok valbz →
       env.getDelegation delAddr valbz = .error .noDelegation →
       env.bytesToString delAddr = .ok s →
       Event.hookBeforeCreated delAddr valbz ∈
         (Delegate env delAddr bondAmt tokenSrc v sub).2) := by
  obtain ⟨pre, t2, u, htr, hpre, ht2, hnl, hbcu, hmap⟩ :=
    delegate_trace_general env delAddr bondAmt tokenSrc v sub
  obtain ⟨hpL, hpA, hpS⟩ := all_three_comp _ _ _ pre hpre
  obtain ⟨htB, htA, htS⟩ := all_three_comp _ _ _ t2 ht2
  refine ⟨?_, ?_, ?_⟩
  · rw [htr, createdBeforeLedger_append, createdBeforeLedger_append]
    simp [cBL_of_no_ledger pre hpL, any_eq_false_of_all_not _ pre hpL,
      cBL_of_no_created t2 htB, cBL_of_no_created u hbcu]
  · rw [htr, modifiedAfterPersist_append, modifiedAfterPersist_append]
    have hu0 : modifiedAfterPersist u false = true := hmap
    simp [mAP_of_no_am pre hpA, any_eq_false_of_all_not _ pre hpS,
      mAP_of_no_am t2 htA, any_eq_false_of_all_not _ t2 htS, hu0]
  · intro valbz s hinv hd hg he
    cases hh : env.beforeDelegationCreated delAddr valbz with
    | some e => simp [Delegate, hinv, hd, hg, he, hh]
    | none =>
        rw [delegate_created_core env delAddr bondAmt tokenSrc v sub valbz s hinv hd hg he hh]
        obtain ⟨w, hw, _⟩ := delegateCore_trace env delAddr bondAmt tokenSrc v sub valbz _ _
        rw [hw]; simp

/-- Witness for C6 on a concrete successful first-time run. -/
theorem delegate_hook_ordering_witness :
    createdBeforeLedger (Delegate goodEnv delBz 100 .unbonded sampleVal true).2 false = true ∧
    modifiedAfterPersist (Delegate goodEnv delBz 100 .unbonded sampleVal true).2 false = true ∧
    Event.hookBeforeCreated delBz valBz ∈ (Delegate goodEnv delBz 100 .unbonded sampleVal true).2 :=
  ⟨(delegate_hook_ordering goodEnv delBz 100 .unbonded sampleVal true).1,
   (delegate_hook_ordering goodEnv delBz 100 .unbonded sampleVal true).2.1,
   (delegate_hook_ordering goodEnv delBz 100 .unbonded sampleVal true).2.2 valBz delStr
     (by decide) rfl rfl rfl⟩

/-- Outcomes of the mint phase when minting itself succeeds: the incremented
record is written, a persistence failure or post-hook failure is returned
with the minted shares, and full success returns the minted shares with no
error. -/
theorem mintPhase_results (env : Env) (delAddr : Bz) (bondAmt : ℤ) (v : Validator)
    (valbz : Bz) (d : Delegation) (t : List Event) (v' : Validator) (nsh : LegacyDec)
    (hm : env.addValidatorTokensAndShares v bondAmt = (v', nsh, none)) :
    Event.storeSetDelegation (updatedDelegation d nsh) ∈
      (mintPhase env delAddr bondAmt v valbz d t).2 ∧
    (∀ e, env.setDelegation (updatedDelegation d nsh) = some e →
       (mintPhase env delAddr bondAmt v valbz d t).1 = .ret nsh (some e)) ∧
    (env.setDelegation (updatedDelegation d nsh) = none →
       (∀ e, env.afterDelegationModified delAddr valbz = some e →
          (mintPhase env delAddr bondAmt v valbz d t).1 = .ret nsh (some e)) ∧
       (env.afterDelegationModified delAddr valbz = none →
          (mintPhase env delAddr bondAmt v valbz d t).1 = .ret nsh none)) := by
  refine ⟨?_, ?_, ?_⟩
  · cases hs : env.setDelegation (updatedDelegation d nsh) with
    | some e => simp [mintPhase, hm, hs]
    | none =>
        cases ha : env.afterDelegationModified delAddr valbz with
        | some e => simp [mintPhase, hm, hs, ha]
        | none => simp [mintPhase, hm, hs, ha]
  · intro e hs
    simp [mintPhase, hm, hs]
  · intro hs
    refine ⟨?_, ?_⟩
    · intro e ha
      simp [mintPhase, hm, hs, ha]
    · intro ha
      simp [mintPhase, hm, hs, ha]

/-- A failing mint call returns whatever decimal the minting primitive
produced, alongside its error. -/
theorem mintPhase_mint_err (env : Env) (delAddr : Bz) (bondAmt : ℤ) (v : Validator)
    (valbz : Bz) (d : Delegation) (t : List Event) (v' : Validator) (nsh : LegacyDec)
    (e : Err)
    (hm : env.addValidatorTokensAndShares v bondAmt = (v', nsh, some e)) :
    mintPhase env delAddr bondAmt v valbz d t =
      (.ret nsh (some e), t ++ [.mintShares v bondAmt]) := by
  simp [mintPhase, hm]

/-- C7: once minting succeeds, the new shares are added to the loaded (or
newly created) delegation's existing balance — the persisted record is
`updatedDelegation`, whose shares are the old shares plus `newShares` — a
persistence or post-hook failure is returned unchanged together with
`newShares`, and full success returns `(newShares, none)`. -/
theorem delegate_update_and_persist (env : Env) (delAddr : Bz) (bondAmt : ℤ)
    (tokenSrc : BondStatus) (v : Validator) (sub : Bool) (valbz : Bz)
    (d : Delegation) (s : String) (v' : Validator) (nsh : LegacyDec)
    (hinv : v.InvalidExRate = false)
    (hd : env.stringToBytes v.operator = .ok valbz)
    (hl : (liquidityPhase env delAddr bondAmt tokenSrc v sub).2 = none)
    (hm : env.addValidatorTokensAndShares v bondAmt = (v', nsh, none)) :
    (env.getDelegation delAddr valbz = .ok d →
     env.beforeDelegationSharesModified delAddr valbz = none →
       Event.storeSetDelegation (updatedDelegation d nsh) ∈
         (Delegate env delAddr bondAmt tokenSrc v sub).2 ∧
       (∀ e, env.setDelegation (updatedDelegation d nsh) = some e →
          (Delegate env delAddr bondAmt tokenSrc v sub).1 = .ret nsh (some e)) ∧
       (env.setDelegation (updatedDelegation d nsh) = none →
          (∀ e, env.afterDelegationModified delAddr valbz = some e →
             (Delegate env delAddr bondAmt tokenSrc v sub).1 = .ret nsh (some e)) ∧
          (env.afterDelegationModified delAddr valbz = none →
             (Delegate env delAddr bondAmt tokenSrc v sub).1 = .ret nsh none))) ∧
    (env.getDelegation delAddr valbz = .error .noDelegation →
     env.bytesToString delAddr = .ok s →
     env.beforeDelegationCreated delAddr valbz = none →
       Event.storeSetDelegation
           (updatedDelegation (NewDelegation s v.operator LegacyDec.zero) nsh) ∈
         (Delegate env delAddr bondAmt tokenSrc v sub).2 ∧
       (∀ e, env.setDelegation
            (updatedDelegation (NewDelegation s v.operator LegacyDec.zero) nsh) = some e →
          (Delegate env delAddr bondAmt tokenSrc v sub).1 = .ret nsh (some e)) ∧
       (env.setDelegation
           (updatedDelegation (NewDelegation s v.operator LegacyDec.zero) nsh) = none →
          (∀ e, env.afterDelegationModified delAddr valbz = some e →
             (Delegate env delAddr bondAmt tokenSrc v sub).1 = .ret nsh (some e)) ∧
          (env.afterDelegationModified delAddr valbz = none →
             (Delegate env delAddr bondAmt tokenSrc v sub).1 = .ret nsh none))) ∧
    (∀ (q r : ℚ) (a b : String),
       (updatedDelegation ⟨a, b, .dec q⟩ (.dec r)).shares = .dec (q + r)) := by
  rcases hlp : liquidityPhase env delAddr bondAmt tokenSrc v sub with ⟨t2, o⟩
  have ho : o = none := by rw [hlp] at hl; exact hl
  subst ho
  refine ⟨?_, ?_, ?_⟩
  · intro hg hh
    rw [delegate_found_core env delAddr bondAmt tokenSrc v sub valbz d hinv hd hg hh,
        delegateCore_cont env delAddr bondAmt tokenSrc v sub valbz d _ t2 hlp]
    exact mintPhase_results env delAddr bondAmt v valbz d _ v' nsh hm
  · intro hg he hh
    rw [delegate_created_core env delAddr bondAmt tokenSrc v sub valbz s hinv hd hg he hh,
        delegateCore_cont env delAddr bondAmt tokenSrc v sub valbz _ _ t2 hlp]
    exact mintPhase_results env delAddr bondAmt v valbz _ _ v' nsh hm
  · intro q r a b
    rfl

/-- Witness for C7 on a concrete first-time delegation of 100 at rate 1. -/
theorem delegate_update_and_persist_witness :
    Event.storeSetDelegation
        (updatedDelegation (NewDelegation delStr opAddr LegacyDec.zero) (.dec 100)) ∈
      (Delegate goodEnv delBz 100 .unbonded sampleVal true).2 ∧
    (Delegate goodEnv delBz 100 .unbonded sampleVal true).1 = .ret (.dec 100) none := by
  have h := (delegate_update_and_persist goodEnv delBz 100 .unbonded sampleVal true valBz
    sampleDel delStr ⟨opAddr, .bonded, 200, 200⟩ (.dec 100) (by decide) rfl rfl
    (by norm_num [goodEnv, specMintOracle, AddValidatorTokensAndShares_spec,
      sampleVal])).2.1 rfl rfl rfl
  exact ⟨h.1, (h.2.2 rfl).2 rfl⟩

/-- The spec-modelled minting primitive at amount zero issues zero shares and
leaves the validator unchanged. -/
theorem spec_mint_zero (v : Validator) : AddValidatorTokensAndShares_spec v 0 = (v, 0) := by
  cases v
  simp [AddValidatorTokensAndShares_spec]

/-- When the bank oracles succeed and the token-source/status combination is
legal, the liquidity phase falls through to share minting. -/
theorem liquidity_succeeds (env : Env) (delAddr : Bz) (bondAmt : ℤ)
    (tokenSrc : BondStatus) (v : Validator) (sub : Bool) (denom : String)
    (hb : env.bondDenom = .ok denom)
    (hsendAcc : ∀ p dn a, env.delegateCoinsFromAccountToModule delAddr p dn a = none)
    (hsendMM : ∀ p q dn a, env.sendCoinsFromModuleToModule p q dn a = none)
    (hc : (sub = true ∧ tokenSrc ≠ .bonded ∧ v.status ≠ .unspecified) ∨
          (sub = false ∧ tokenSrc ≠ .unspecified)) :
    (liquidityPhase env delAddr bondAmt tokenSrc v sub).2 = none := by
  rcases hc with ⟨hs, hsb, hst⟩ | ⟨hs, hsu⟩ <;> subst hs
  · obtain ⟨pool, hpool⟩ : ∃ p, poolForStatus v.status = some p := by
      cases hv : v.status with
      | unspecified => exact absurd hv hst
      | bonded => exact ⟨.bonded, rfl⟩
      | unbonding => exact ⟨.notBonded, rfl⟩
      | unbonded => exact ⟨.notBonded, rfl⟩
    rw [liquidity_subtract env delAddr bondAmt tokenSrc v denom pool hb hsb hpool]
    simp [sendAbort, hsendAcc]
  · cases hts : tokenSrc with
    | unspecified => exact absurd hts hsu
    | bonded =>
        cases hbond : v.IsBonded with
        | true =>
            rw [liquidity_noop env delAddr bondAmt .bonded v (Or.inl ⟨rfl, hbond⟩)]
        | false =>
            rw [liquidity_b_to_nb env delAddr bondAmt v denom hb hbond]
            simp [sendAbort, hsendMM]
    | unbonded =>
        cases hbond : v.IsBonded with
        | true =>
            rw [liquidity_nb_to_b env delAddr bondAmt .unbonded v denom hb (Or.inl rfl) hbond]
            simp [sendAbort, hsendMM]
        | false =>
            rw [liquidity_noop env delAddr bondAmt .unbonded v (Or.inr ⟨Or.inl rfl, hbond⟩)]
    | unbonding =>
        cases hbond : v.IsBonded with
        | true =>
            rw [liquidity_nb_to_b env delAddr bondAmt .unbonding v denom hb (Or.inr rfl) hbond]
            simp [sendAbort, hsendMM]
        | false =>
            rw [liquidity_noop env delAddr bondAmt .unbonding v (Or.inr ⟨Or.inr rfl, hbond⟩)]

/-- C9: with a valid validator, a legal token-source/subtraction combination,
succeeding collaborators and the spec-modelled minting primitive, delegating
a zero amount succeeds with zero new shares, and the minting step leaves the
validator's aggregate token and share totals unchanged. -/
theorem delegate_zero_amount (env : Env) (delAddr : Bz) (tokenSrc : BondStatus)
    (v : Validator) (sub : Bool) (valbz : Bz) (d : Delegation) (s denom : String)
    (hinv : v.InvalidExRate = false)
    (hd : env.stringToBytes v.operator = .ok valbz)
    (hpre : (env.getDelegation delAddr valbz = .ok d ∧
             env.beforeDelegationSharesModified delAddr valbz = none) ∨
            (env.getDelegation delAddr valbz = .error .noDelegation ∧
             env.bytesToString delAddr = .ok s ∧
             env.beforeDelegationCreated delAddr valbz = none))
    (hb : env.bondDenom = .ok denom)
    (hsendAcc : ∀ p dn a, env.delegateCoinsFromAccountToModule delAddr p dn a = none)
    (hsendMM : ∀ p q dn a, env.sendCoinsFromModuleToModule p q dn a = none)
    (hset : ∀ d', env.setDelegation d' = none)
    (hAM : ∀ a b, env.afterDelegationModified a b = none)
    (hmint : env.addValidatorTokensAndShares = specMintOracle)
    (hc : (sub = true ∧ tokenSrc ≠ .bonded ∧ v.status ≠ .unspecified) ∨
          (sub = false ∧ tokenSrc ≠ .unspecified)) :
    (Delegate env delAddr 0 tokenSrc v sub).1 = .ret (.dec 0) none ∧
    (AddValidatorTokensAndShares_spec v 0).1 = v := by
  have hl := liquidity_succeeds env delAddr 0 tokenSrc v sub denom hb hsendAcc hsendMM hc
  have hm : env.addValidatorTokensAndShares v 0 = ((AddValidatorTokensAndShares_spec v 0).1,
      .dec 0, none) := by
    rw [hmint]
    simp [specMintOracle, spec_mint_zero]
  rcases hlp : liquidityPhase env delAddr 0 tokenSrc v sub with ⟨t2, o⟩
  have ho : o = none := by rw [hlp] at hl; exact hl
  subst ho
  refine ⟨?_, by rw [spec_mint_zero]⟩
  rcases hpre with ⟨hg, hh⟩ | ⟨hg, he, hh⟩
  · rw [delegate_found_core env delAddr 0 tokenSrc v sub valbz d hinv hd hg hh,
        delegateCore_cont env delAddr 0 tokenSrc v sub valbz d _ t2 hlp]
    exact ((mintPhase_results env delAddr 0 v valbz d _ _ _ hm).2.2 (hset _)).2 (hAM _ _)
  · rw [delegate_created_core env delAddr 0 tokenSrc v sub valbz s hinv hd hg he hh,
        delegateCore_cont env delAddr 0 tokenSrc v sub valbz _ _ t2 hlp]
    exact ((mintPhase_results env delAddr 0 v valbz _ _ _ _ hm).2.2 (hset _)).2 (hAM _ _)

/-- Witness for C9 at a concrete bonded validator and direct delegation. -/
theorem delegate_zero_amount_witness :
    (Delegate goodEnv delBz 0 .unbonded sampleVal true).1 = .ret (.dec 0) none ∧
    (AddValidatorTokensAndShares_spec sampleVal 0).1 = sampleVal :=
  delegate_zero_amount goodEnv delBz .unbonded sampleVal true valBz sampleDel delStr
    stakeDenom (by decide) rfl (Or.inr ⟨rfl, rfl, rfl⟩) rfl (fun _ _ _ => rfl)
    (fun _ _ _ _ => rfl) (fun _ => rfl) (fun _ _ => rfl) rfl
    (Or.inl ⟨rfl, by decide, by decide⟩)

/-- After a successful pre-phase, `Delegate` is `delegateCore` on some record
and pre-trace. -/
theorem delegate_reduces_to_core (env : Env) (delAddr : Bz) (bondAmt : ℤ)
    (tokenSrc : BondStatus) (v : Validator) (sub : Bool) (valbz : Bz)
    (d : Delegation) (s : String)
    (hinv : v.InvalidExRate = false)
    (hd : env.stringToBytes v.operator = .ok valbz)
    (hpre : PreOK env delAddr valbz d s) :
    ∃ D t, Delegate env delAddr bondAmt tokenSrc v sub =
      delegateCore env delAddr bondAmt tokenSrc v sub valbz D t := by
  rcases hpre with ⟨hg, hh⟩ | ⟨hg, he, hh⟩
  · exact ⟨d, _, delegate_found_core env delAddr bondAmt tokenSrc v sub valbz d hinv hd hg hh⟩
  · exact ⟨_, _,
      delegate_created_core env delAddr bondAmt tokenSrc v sub valbz s hinv hd hg he hh⟩

/-- A failing bond-denomination lookup aborts the liquidity phase with the
nil decimal, on every branch that queries it. -/
theorem liquidity_denom_err (env : Env) (delAddr : Bz) (bondAmt : ℤ)
    (tokenSrc : BondStatus) (v : Validator) (sub : Bool) (e : Err)
    (hb : env.bondDenom = .error e)
    (hbr : (sub = true ∧ tokenSrc ≠ .bonded ∧ v.status ≠ .unspecified) ∨
           (sub = false ∧
             (((tokenSrc = .unbonded ∨ tokenSrc = .unbonding) ∧ v.IsBonded = true) ∨
              (tokenSrc = .bonded ∧ v.IsBonded = false)))) :
    liquidityPhase env delAddr bondAmt tokenSrc v sub =
      ([.bondDenomQuery], some (.ret .nil (some e))) := by
  rcases hbr with ⟨hs, hsb, hst⟩ | ⟨hs, hcase⟩ <;> subst hs
  · have hne : (tokenSrc == BondStatus.bonded) = false := by
      cases tokenSrc <;> simp_all
    cases hv : v.status with
    | unspecified => exact absurd hv hst
    | bonded =>
        simp [liquidityPhase, hne, hb, Validator.IsBonded, Validator.IsUnbonding,
          Validator.IsUnbonded, hv]
    | unbonding =>
        simp [liquidityPhase, hne, hb, Validator.IsBonded, Validator.IsUnbonding,
          Validator.IsUnbonded, hv]
    | unbonded =>
        simp [liquidityPhase, hne, hb, Validator.IsBonded, Validator.IsUnbonding,
          Validator.IsUnbonded, hv]
  · rcases hcase with ⟨hsrc, hbond⟩ | ⟨hsrc, hbond⟩
    · rcases hsrc with h | h <;> subst h <;>
        simp [liquidityPhase, notBondedTokensToBonded, hb, hbond, sendAbort]
    · subst hsrc
      simp [liquidityPhase, bondedTokensToNotBonded, hb, hbond, sendAbort]

/-- C10: the decimal returned alongside an error is not uniform — the
exchange-rate gate, a decode failure, a genuine lookup failure and a pre-hook
failure return the zero decimal; an encode failure, a bond-denomination
failure and a ledger-transfer failure return the uninitialized nil decimal;
and a minting, persistence or post-hook failure returns the minted
`newShares` value. -/
theorem delegate_error_decimal_taxonomy (env : Env) (delAddr : Bz) (bondAmt : ℤ)
    (tokenSrc : BondStatus) (v : Validator) (sub : Bool) :
    (v.InvalidExRate = true →
       (Delegate env delAddr bondAmt tokenSrc v sub).1 =
         .ret LegacyDec.zero (some .exRateInvalid)) ∧
    (v.InvalidExRate = false → ∀ e, env.stringToBytes v.operator = .error e →
       (Delegate env delAddr bondAmt tokenSrc v sub).1 = .ret LegacyDec.zero (some e)) ∧
    (v.InvalidExRate = false → ∀ valbz e, env.stringToBytes v.operator = .ok valbz →
       e ≠ .noDelegation → env.getDelegation delAddr valbz = .error e →
       (Delegate env delAddr bondAmt tokenSrc v sub).1 = .ret LegacyDec.zero (some e)) ∧
    (v.InvalidExRate = false → ∀ valbz d e, env.stringToBytes v.operator = .ok valbz →
       env.getDelegation delAddr valbz = .ok d →
       env.beforeDelegationSharesModified delAddr valbz = some e →
       (Delegate env delAddr bondAmt tokenSrc v sub).1 = .ret LegacyDec.zero (some e)) ∧
    (v.InvalidExRate = false → ∀ valbz s e, env.stringToBytes v.operator = .ok valbz →
       env.getDelegation delAddr valbz = .error .noDelegation →
       env.bytesToString delAddr = .ok s →
       env.beforeDelegationCreated delAddr valbz = some e →
       (Delegate env delAddr bondAmt tokenSrc v sub).1 = .ret LegacyDec.zero (some e)) ∧
    (v.InvalidExRate = false → ∀ valbz e1, env.stringToBytes v.operator = .ok valbz →
       env.getDelegation delAddr valbz = .error .noDelegation →
       env.bytesToString delAddr = .error e1 →
       (Delegate env delAddr bondAmt tokenSrc v sub).1 = .ret .nil (some e1)) ∧
    (v.InvalidExRate = false → ∀ valbz d s e, env.stringToBytes v.operator = .ok valbz →
       PreOK env delAddr valbz d s →
       env.bondDenom = .error e →
       ((sub = true ∧ tokenSrc ≠ .bonded ∧ v.status ≠ .unspecified) ∨
        (sub = false ∧
          (((tokenSrc = .unbonded ∨ tokenSrc = .unbonding) ∧ v.IsBonded = true) ∨
           (tokenSrc = .bonded ∧ v.IsBonded = false)))) →
       (Delegate env delAddr bondAmt tokenSrc v sub).1 = .ret .nil (some e)) ∧
    (v.InvalidExRate = false → ∀ valbz d s denom pool e,
       env.stringToBytes v.operator = .ok valbz →
       PreOK env delAddr valbz d s →
       env.bondDenom = .ok denom →
       sub = true → tokenSrc ≠ .bonded → poolForStatus v.status = some pool →
       env.delegateCoinsFromAccountToModule delAddr pool denom bondAmt = some e →
       (Delegate env delAddr bondAmt tokenSrc v sub).1 = .ret .nil (some e)) ∧
    (v.InvalidExRate = false → ∀ valbz d s denom e,
       env.stringToBytes v.operator = .ok valbz →
       PreOK env delAddr valbz d s →
       env.bondDenom = .ok denom →
       sub = false → (tokenSrc = .unbonded ∨ tokenSrc = .unbonding) → v.IsBonded = true →
       env.sendCoinsFromModuleToModule .notBonded .bonded denom bondAmt = some e →
       (Delegate env delAddr bondAmt tokenSrc v sub).1 = .ret .nil (some e)) ∧
    (v.InvalidExRate = false → ∀ valbz d s denom e,
       env.stringToBytes v.operator = .ok valbz →
       PreOK env delAddr valbz d s →
       env.bondDenom = .ok denom →
       sub = false → tokenSrc = .bonded → v.IsBonded = false →
       env.sendCoinsFromModuleToModule .bonded .notBonded denom bondAmt = some e →
       (Delegate env delAddr bondAmt tokenSrc v sub).1 = .ret .nil (some e)) ∧
    (v.InvalidExRate = false → ∀ valbz d s v' nsh e,
       env.stringToBytes v.operator = .ok valbz →
       PreOK env delAddr valbz d s →
       (liquidityPhase env delAddr bondAmt tokenSrc v sub).2 = none →
       env.addValidatorTokensAndShares v bondAmt = (v', nsh, some e) →
       (Delegate env delAddr bondAmt tokenSrc v sub).1 = .ret nsh (some e)) ∧
    (v.InvalidExRate = false → ∀ valbz d s v' nsh e,
       env.stringToBytes v.operator = .ok valbz →
       PreOK env delAddr valbz d s →
       (liquidityPhase env delAddr bondAmt tokenSrc v sub).2 = none →
       env.addValidatorTokensAndShares v bondAmt = (v', nsh, none) →
       (∀ d', env.setDelegation d' = some e) →
       (Delegate env delAddr bondAmt tokenSrc v sub).1 = .ret nsh (some e)) ∧
    (v.InvalidExRate = false → ∀ valbz d s v' nsh e,
       env.stringToBytes v.operator = .ok valbz →
       PreOK env delAddr valbz d s →
       (liquidityPhase env delAddr bondAmt tokenSrc v sub).2 = none →
       env.addValidatorTokensAndShares v bondAmt = (v', nsh, none) →
       (∀ d', env.setDelegation d' = none) →
       env.afterDelegationModified delAddr valbz = some e →
       (Delegate env delAddr bondAmt tokenSrc v sub).1 = .ret nsh (some e)) := by
  refine ⟨?_, ?_, ?_, ?_, ?_, ?_, ?_, ?_, ?_, ?_, ?_, ?_, ?_⟩
  · intro h
    simp [Delegate, h]
  · intro hinv e hd
    simp [Delegate, hinv, hd]
  · intro hinv valbz e hd hne hg
    cases e with
    | noDelegation => exact absurd rfl hne
    | exRateInvalid => simp [Delegate, hinv, hd, hg]
    | msg n => simp [Delegate, hinv, hd, hg]
  · intro hinv valbz d e hd hg hh
    simp [Delegate, hinv, hd, hg, hh]
  · intro hinv valbz s e hd hg he hh
    simp [Delegate, hinv, hd, hg, he, hh]
  · intro hinv valbz e1 hd hg he
    simp [Delegate, hinv, hd, hg, he]
  · intro hinv valbz d s e hd hpre hbe hbr
    obtain ⟨D, t, hred⟩ := delegate_reduces_to_core env delAddr bondAmt tokenSrc v sub valbz
      d s hinv hd hpre
    rw [hred, delegateCore_abort env delAddr bondAmt tokenSrc v sub valbz D t _ _
      (liquidity_denom_err env delAddr bondAmt tokenSrc v sub e hbe hbr)]
  · intro hinv valbz d s denom pool e hd hpre hb hs hsb hpool hsend
    subst hs
    obtain ⟨D, t, hred⟩ := delegate_reduces_to_core env delAddr bondAmt tokenSrc v true valbz
      d s hinv hd hpre
    have hlp : liquidityPhase env delAddr bondAmt tokenSrc v true =
        ([.bondDenomQuery, .ledgerDelegateToModule delAddr pool denom bondAmt],
         some (.ret .nil (some e))) := by
      rw [liquidity_subtract env delAddr bondAmt tokenSrc v denom pool hb hsb hpool]
      simp [sendAbort, hsend]
    rw [hred, delegateCore_abort env delAddr bondAmt tokenSrc v true valbz D t _ _ hlp]
  · intro hinv valbz d s denom e hd hpre hb hs hsrc hbond hsend
    subst hs
    obtain ⟨D, t, hred⟩ := delegate_reduces_to_core env delAddr bondAmt tokenSrc v false valbz
      d s hinv hd hpre
    have hlp : liquidityPhase env delAddr bondAmt tokenSrc v false =
        ([.bondDenomQuery, .ledgerModuleToModule .notBonded .bonded denom bondAmt],
         some (.ret .nil (some e))) := by
      rw [liquidity_nb_to_b env delAddr bondAmt tokenSrc v denom hb hsrc hbond]
      simp [sendAbort, hsend]
    rw [hred, delegateCore_abort env delAddr bondAmt tokenSrc v false valbz D t _ _ hlp]
  · intro hinv valbz d s denom e hd hpre hb hs hsrc hbond hsend
    subst hs; subst hsrc
    obtain ⟨D, t, hred⟩ := delegate_reduces_to_core env delAddr bondAmt .bonded v false valbz
      d s hinv hd hpre
    have hlp : liquidityPhase env delAddr bondAmt .bonded v false =
        ([.bondDenomQuery, .ledgerModuleToModule .bonded .notBonded denom bondAmt],
         some (.ret .nil (some e))) := by
      rw [liquidity_b_to_nb env delAddr bondAmt v denom hb hbond]
      simp [sendAbort, hsend]
    rw [hred, delegateCore_abort env delAddr bondAmt .bonded v false valbz D t _ _ hlp]
  · intro hinv valbz d s v' nsh e hd hpre hl hm
    obtain ⟨D, t, hred⟩ := delegate_reduces_to_core env delAddr bondAmt tokenSrc v sub valbz
      d s hinv hd hpre
    rcases hlp : liquidityPhase env delAddr bondAmt tokenSrc v sub with ⟨t2, o⟩
    have ho : o = none := by rw [hlp] at hl; exact hl
    subst ho
    rw [hred, delegateCore_cont env delAddr bondAmt tokenSrc v sub valbz D t t2 hlp,
      mintPhase_mint_err env delAddr bondAmt v valbz D _ v' nsh e hm]
  · intro hinv valbz d s v' nsh e hd hpre hl hm hset
    obtain ⟨D, t, hred⟩ := delegate_reduces_to_core env delAddr bondAmt tokenSrc v sub valbz
      d s hinv hd hpre
    rcases hlp : liquidityPhase env delAddr bondAmt tokenSrc v sub with ⟨t2, o⟩
    have ho : o = none := by rw [hlp] at hl; exact hl
    subst ho
    rw [hred, delegateCore_cont env delAddr bondAmt tokenSrc v sub valbz D t t2 hlp]
    exact (mintPhase_results env delAddr bondAmt v valbz D _ v' nsh hm).2.1 e (hset _)
  · intro hinv valbz d s v' nsh e hd hpre hl hm hset hAM
    obtain ⟨D, t, hred⟩ := delegate_reduces_to_core env delAddr bondAmt tokenSrc v sub valbz
      d s hinv hd hpre
    rcases hlp : liquidityPhase env delAddr bondAmt tokenSrc v sub with ⟨t2, o⟩
    have ho : o = none := by rw [hlp] at hl; exact hl
    subst ho
    rw [hred, delegateCore_cont env delAddr bondAmt tokenSrc v sub valbz D t t2 hlp]
    exact ((mintPhase_results env delAddr bondAmt v valbz D _ v' nsh hm).2.2
      (hset _)).1 e hAM

/-- Witness for C10: one concrete run per error class, showing the zero
decimal, the nil decimal, and a non-zero minted-shares decimal returned with
the error. -/
theorem delegate_error_decimal_taxonomy_witness :
    (Delegate goodEnv delBz 10 .unbonded invalidVal true).1 =
      .ret LegacyDec.zero (some .exRateInvalid) ∧
    (Delegate decodeFailEnv delBz 10 .unbonded sampleVal true).1 =
      .ret LegacyDec.zero (some (.msg 5)) ∧
    (Delegate encFailEnv delBz 10 .unbonded sampleVal true).1 =
      .ret .nil (some (.msg 1)) ∧
    (Delegate denomFailEnv delBz 10 .unbonded sampleVal true).1 =
      .ret .nil (some (.msg 6)) ∧
    (Delegate acctSendFailEnv delBz 10 .unbonded sampleVal true).1 =
      .ret .nil (some (.msg 7)) ∧
    (Delegate mintFailEnv delBz 10 .unbonded sampleVal true).1 =
      .ret (.dec 50) (some (.msg 8)) ∧
    (Delegate setFailEnv delBz 10 .unbonded sampleVal true).1 =
      .ret (.dec 10) (some (.msg 9)) ∧
    (Delegate amFailEnv delBz 10 .unbonded sampleVal true).1 =
      .ret (.dec 10) (some (.msg 10)) :=
  ⟨(delegate_error_decimal_taxonomy goodEnv delBz 10 .unbonded invalidVal true).1
      (by decide),
   (delegate_error_decimal_taxonomy decodeFailEnv delBz 10 .unbonded sampleVal true).2.1
      (by decide) (.msg 5) rfl,
   (delegate_error_decimal_taxonomy encFailEnv delBz 10 .unbonded sampleVal true).2.2.2.2.2.1
      (by decide) valBz (.msg 1) rfl rfl rfl,
   (delegate_error_decimal_taxonomy denomFailEnv delBz 10 .unbonded sampleVal
      true).2.2.2.2.2.2.1 (by decide) valBz sampleDel delStr (.msg 6) rfl
      (Or.inl ⟨rfl, rfl⟩) rfl (Or.inl ⟨rfl, by decide, by decide⟩),
   (delegate_error_decimal_taxonomy acctSendFailEnv delBz 10 .unbonded sampleVal
      true).2.2.2.2.2.2.2.1 (by decide) valBz sampleDel delStr stakeDenom .bonded (.msg 7)
      rfl (Or.inr ⟨rfl, rfl, rfl⟩) rfl rfl (by decide) rfl rfl,
   (delegate_error_decimal_taxonomy mintFailEnv delBz 10 .unbonded sampleVal
      true).2.2.2.2.2.2.2.2.2.2.1 (by decide) valBz sampleDel delStr sampleVal (.dec 50)
      (.msg 8) rfl (Or.inl ⟨rfl, rfl⟩) rfl rfl,
   (delegate_error_decimal_taxonomy setFailEnv delBz 10 .unbonded sampleVal
      true).2.2.2.2.2.2.2.2.2.2.2.1 (by decide) valBz sampleDel delStr
      ⟨opAddr, .bonded, 110, 110⟩ (.dec 10) (.msg 9) rfl (Or.inl ⟨rfl, rfl⟩) rfl
      (by norm_num [setFailEnv, foundEnv, goodEnv, specMintOracle,
        AddValidatorTokensAndShares_spec, sampleVal]) (fun _ => rfl),
   (delegate_error_decimal_taxonomy amFailEnv delBz 10 .unbonded sampleVal
      true).2.2.2.2.2.2.2.2.2.2.2.2 (by decide) valBz sampleDel delStr
      ⟨opAddr, .bonded, 110, 110⟩ (.dec 10) (.msg 10) rfl (Or.inl ⟨rfl, rfl⟩) rfl
      (by norm_num [amFailEnv, foundEnv, goodEnv, specMintOracle,
        AddValidatorTokensAndShares_spec, sampleVal]) (fun _ => rfl) rfl⟩

end StakingKeeper
